import Mathlib

/-!
Tic-tac-toe (`tic-tac-toe.go`): embedding and verified properties

The Go program keeps a `gameState` (a `[3][3]squareState` board and a
`turnPlayer`), both element types being named `int` types.  The embedding keeps
them as integers, so that states the Go types admit (a `turnPlayer` that is
neither `cross` nor `circle`, say) are states of the model as well.

A Go run-time panic on an index out of range and the exhaustion of the loop
budget of `checkLine` are the two faults of the model; every operation that
indexes the board returns `Except Fault _`.
-/

namespace TicTacToe

/-- Go: `type squareState int`. -/
abbrev squareState := Int

/-- Go: `type player int`. -/
abbrev player := Int

/-- Go: `type gameResult int`. -/
abbrev gameResult := Int

/-- Go: `none = iota` (0). -/
abbrev none : Int := 0

/-- Go: `cross` (1). -/
abbrev cross : Int := 1

/-- Go: `circle` (2). -/
abbrev circle : Int := 2

/-- Go: `noWinner = iota` (0). -/
abbrev noWinner : gameResult := 0

/-- Go: `crossWon` (1). -/
abbrev crossWon : gameResult := 1

/-- Go: `circleWon` (2). -/
abbrev circleWon : gameResult := 2

/-- Go: `draw` (3). -/
abbrev draw : gameResult := 3

/-- The ways an execution of the model can fail to produce a value. -/
inductive Fault where
  | indexOutOfRange
  | outOfFuel
  deriving DecidableEq, Repr

/-- Go: `[3][3]squareState`, a fixed array of three rows of three squares. -/
abbrev Board := Fin 3 → Fin 3 → squareState

/-- Go: `len(state.board)`, also `len(state.board[row])`. -/
abbrev boardSize : Int := 3

/-- Go: `type gameState struct { board [3][3]squareState; turnPlayer player }`. -/
structure gameState where
  board : Board
  turnPlayer : player

/-- Go: the index expression `state.board[row][column]` with `int` indices; an
index outside the array is a run-time panic. -/
def Board.get (b : Board) (row column : Int) : Except Fault squareState :=
  if h : 0 ≤ row ∧ row < 3 ∧ 0 ≤ column ∧ column < 3 then
    Except.ok (b ⟨row.toNat, by omega⟩ ⟨column.toNat, by omega⟩)
  else
    Except.error Fault.indexOutOfRange

/-- Go: the assignment `state.board[row][column] = v` with `int` indices. -/
def Board.set (b : Board) (row column : Int) (v : squareState) : Except Fault Board :=
  if 0 ≤ row ∧ row < 3 ∧ 0 ≤ column ∧ column < 3 then
    Except.ok (fun i j => if (i.val : Int) = row ∧ (j.val : Int) = column then v else b i j)
  else
    Except.error Fault.indexOutOfRange

/-- Go: the error values `placeMark` returns. -/
inductive placeError where
  | markAlreadyExistsError (row column : Int)
  | positionOutOfBoundsError (row column : Int)
  deriving DecidableEq, Repr

/-- Go: `func (state *gameState) placeMark(row int, column int) error`.  The
result pairs the returned error (`Option.none` for Go's `nil`) with the state
the receiver is left in. -/
def placeMark (state : gameState) (row column : Int) :
    Except Fault (Option placeError × gameState) :=
  if row < 0 ∨ column < 0 ∨ row ≥ boardSize ∨ column ≥ boardSize then
    Except.ok (Option.some (placeError.positionOutOfBoundsError row column), state)
  else
    match state.board.get row column with
    | Except.error f => Except.error f
    | Except.ok sq =>
      if sq ≠ none then
        Except.ok (Option.some (placeError.markAlreadyExistsError row column), state)
      else
        match state.board.set row column state.turnPlayer with
        | Except.error f => Except.error f
        | Except.ok b => Except.ok (Option.none, { state with board := b })

/-- Go: `func (state *gameState) decideNext() player`. -/
def decideNext (state : gameState) : player := state.turnPlayer

/-- Go: `func (state *gameState) nextTurn()`. -/
def nextTurn (state : gameState) : gameState :=
  if state.turnPlayer = cross then { state with turnPlayer := circle }
  else { state with turnPlayer := cross }

/-- Go: the `for` loop of `checkLine` followed by its `switch lastSquare`.  One
unit of `fuel` is spent on every evaluation of the loop condition. -/
def checkLineLoop (b : Board) (deltaRow deltaColumn : Int) :
    Nat → squareState → Int → Int → Except Fault gameResult
  | 0, _, _, _ => Except.error Fault.outOfFuel
  | fuel + 1, lastSquare, row, column =>
    if row ≥ 0 ∧ column ≥ 0 ∧ row < boardSize ∧ column < boardSize then
      match b.get row column with
      | Except.error f => Except.error f
      | Except.ok sq =>
        if sq = none then Except.ok noWinner
        else if lastSquare ≠ sq then Except.ok noWinner
        else checkLineLoop b deltaRow deltaColumn fuel sq (row + deltaRow) (column + deltaColumn)
    else if lastSquare = cross then Except.ok crossWon
    else if lastSquare = circle then Except.ok circleWon
    else Except.ok noWinner

/-- Go: the closure `checkLine` of `checkForWinner`. -/
def checkLine (b : Board) (fuel : Nat) (startRow startColumn deltaRow deltaColumn : Int) :
    Except Fault gameResult :=
  match b.get startRow startColumn with
  | Except.error f => Except.error f
  | Except.ok lastSquare =>
    checkLineLoop b deltaRow deltaColumn fuel lastSquare
      (startRow + deltaRow) (startColumn + deltaColumn)

/-- Go: a loop `for i := ...; i < boardSize; i++ { if result := check(i); result != noWinner
{ return result } }`, over the index values still to be visited; `noWinner`
stands for falling out of the loop. -/
def scanLines (check : Int → Except Fault gameResult) : List Int → Except Fault gameResult
  | [] => Except.ok noWinner
  | i :: rest =>
    match check i with
    | Except.error f => Except.error f
    | Except.ok result => if result ≠ noWinner then Except.ok result else scanLines check rest

/-- Go: the nested `range` loops at the end of `checkForWinner`: is some square
`none`? -/
def hasNone (b : Board) : Bool :=
  (List.finRange 3).any fun i => (List.finRange 3).any fun j => decide (b i j = none)

/-- Go: `func (state *gameState) checkForWinner() gameResult`.  The second scan
is the loop under the comment `check vertical columns`; its call is
`checkLine(column, 0, 0, 1)`, as in the source. -/
def checkForWinner (fuel : Nat) (state : gameState) : Except Fault gameResult :=
  match scanLines (fun row => checkLine state.board fuel row 0 0 1) [0, 1, 2] with
  | Except.error f => Except.error f
  | Except.ok result =>
    if result ≠ noWinner then Except.ok result
    else
      match scanLines (fun column => checkLine state.board fuel column 0 0 1) [0, 1, 2] with
      | Except.error f => Except.error f
      | Except.ok result =>
        if result ≠ noWinner then Except.ok result
        else
          match checkLine state.board fuel 0 0 1 1 with
          | Except.error f => Except.error f
          | Except.ok result =>
            if result ≠ noWinner then Except.ok result
            else
              match checkLine state.board fuel 0 (boardSize - 1) 1 (-1) with
              | Except.error f => Except.error f
              | Except.ok result =>
                if result ≠ noWinner then Except.ok result
                else if hasNone state.board then Except.ok noWinner
                else Except.ok draw

/-- One completed pass of the outer loop of `main`: the state the pass started
in, the position whose `placeMark` succeeded, the state right after it and the
value of `checkForWinner` there. -/
structure move where
  before : gameState
  row : Int
  column : Int
  after : gameState
  result : gameResult

/-- Go: the loops of `main`, fed with the pairs `fmt.Scan` delivers.  A pair
whose `placeMark` fails is answered by another prompt; a successful one is
followed by `checkForWinner`, which ends the loop unless it returned
`noWinner`, in which case `nextTurn` runs.  The value is the log of the passes
completed on the given input. -/
def mainLoop (fuel : Nat) : gameState → List (Int × Int) → Except Fault (List move)
  | _, [] => Except.ok []
  | state, (row, column) :: rest =>
    match placeMark state row column with
    | Except.error f => Except.error f
    | Except.ok (Option.some _, retry) => mainLoop fuel retry rest
    | Except.ok (Option.none, placed) =>
      match checkForWinner fuel placed with
      | Except.error f => Except.error f
      | Except.ok result =>
        if result ≠ noWinner then Except.ok [⟨state, row, column, placed, result⟩]
        else
          match mainLoop fuel (nextTurn placed) rest with
          | Except.error f => Except.error f
          | Except.ok log => Except.ok (⟨state, row, column, placed, result⟩ :: log)

/-- Go: `state := gameState{}` followed by `state.turnPlayer = cross`. -/
def initialState : gameState := ⟨fun _ _ => none, cross⟩

/-- Go: `func main()`, as the log of its loop on the given input. -/
def main (fuel : Nat) (inputs : List (Int × Int)) : Except Fault (List move) :=
  mainLoop fuel initialState inputs

/-- The result of scanning a line whose three squares are `a`, `b`, `c`, in
closed form. -/
def lineWin (a b c : squareState) : gameResult :=
  if a = cross ∧ b = cross ∧ c = cross then crossWon
  else if a = circle ∧ b = circle ∧ c = circle then circleWon
  else noWinner

/-- The first result of a list that is not `noWinner`, `noWinner` if there is none. -/
def firstWin : List gameResult → gameResult
  | [] => noWinner
  | r :: rest => if r ≠ noWinner then r else firstWin rest

/-- What `checkForWinner` computes, in closed form: the rows, the two
diagonals, then the test for a free square. -/
def scanResult (b : Board) : gameResult :=
  let w := firstWin [lineWin (b 0 0) (b 0 1) (b 0 2), lineWin (b 1 0) (b 1 1) (b 1 2),
    lineWin (b 2 0) (b 2 1) (b 2 2), lineWin (b 0 0) (b 1 1) (b 2 2),
    lineWin (b 0 2) (b 1 1) (b 2 0)]
  if w ≠ noWinner then w else if hasNone b then noWinner else draw

/-- Every square holds one of the three marks `none`, `cross`, `circle`. -/
def Board.wellFormed (b : Board) : Prop :=
  ∀ i j, b i j = none ∨ b i j = cross ∨ b i j = circle

instance (b : Board) : Decidable b.wellFormed :=
  inferInstanceAs (Decidable (∀ i j, b i j = none ∨ b i j = cross ∨ b i j = circle))

/-- The three squares of row `r` all hold `m`. -/
def rowHolds (b : Board) (r : Fin 3) (m : squareState) : Prop :=
  b r 0 = m ∧ b r 1 = m ∧ b r 2 = m

instance (b : Board) (r : Fin 3) (m : squareState) : Decidable (rowHolds b r m) :=
  inferInstanceAs (Decidable (b r 0 = m ∧ b r 1 = m ∧ b r 2 = m))

/-- The three squares of column `c` all hold `m`. -/
def columnHolds (b : Board) (c : Fin 3) (m : squareState) : Prop :=
  b 0 c = m ∧ b 1 c = m ∧ b 2 c = m

instance (b : Board) (c : Fin 3) (m : squareState) : Decidable (columnHolds b c m) :=
  inferInstanceAs (Decidable (b 0 c = m ∧ b 1 c = m ∧ b 2 c = m))

/-- The squares (0,0), (1,1), (2,2) all hold `m`. -/
def diagonalHolds (b : Board) (m : squareState) : Prop :=
  b 0 0 = m ∧ b 1 1 = m ∧ b 2 2 = m

instance (b : Board) (m : squareState) : Decidable (diagonalHolds b m) :=
  inferInstanceAs (Decidable (b 0 0 = m ∧ b 1 1 = m ∧ b 2 2 = m))

/-- The squares (0,2), (1,1), (2,0) all hold `m`. -/
def antidiagonalHolds (b : Board) (m : squareState) : Prop :=
  b 0 2 = m ∧ b 1 1 = m ∧ b 2 0 = m

instance (b : Board) (m : squareState) : Decidable (antidiagonalHolds b m) :=
  inferInstanceAs (Decidable (b 0 2 = m ∧ b 1 1 = m ∧ b 2 0 = m))

/-- One of the eight lines holds `m` in all three squares. -/
def lineHolds (b : Board) (m : squareState) : Prop :=
  (∃ r, rowHolds b r m) ∨ (∃ c, columnHolds b c m) ∨ diagonalHolds b m ∨ antidiagonalHolds b m

instance (b : Board) (m : squareState) : Decidable (lineHolds b m) :=
  inferInstanceAs (Decidable ((∃ r, rowHolds b r m) ∨ (∃ c, columnHolds b c m) ∨
    diagonalHolds b m ∨ antidiagonalHolds b m))

/-- The win that goes with a mark: `crossWon` for `cross`, `circleWon` for
`circle`. -/
def winOf (m : squareState) : gameResult :=
  if m = cross then crossWon else if m = circle then circleWon else noWinner

/-- The eight lines in the order of the specification: the rows from top to
bottom, the columns from left to right, the diagonal from the top left, the
diagonal from the top right. -/
def referenceLines (b : Board) : List (squareState × squareState × squareState) :=
  [(b 0 0, b 0 1, b 0 2), (b 1 0, b 1 1, b 1 2), (b 2 0, b 2 1, b 2 2),
   (b 0 0, b 1 0, b 2 0), (b 0 1, b 1 1, b 2 1), (b 0 2, b 1 2, b 2 2),
   (b 0 0, b 1 1, b 2 2), (b 0 2, b 1 1, b 2 0)]

/-- The reference evaluation of the specification: the win of the first line,
in the order of `referenceLines`, whose squares are all `cross` or all
`circle`; without such a line, `draw` when no square is `none` and `noWinner`
otherwise. -/
def referenceEvaluate (b : Board) : gameResult :=
  match (referenceLines b).find? (fun l => (l.1 = cross ∧ l.2.1 = cross ∧ l.2.2 = cross) ∨
      (l.1 = circle ∧ l.2.1 = circle ∧ l.2.2 = circle)) with
  | Option.some l => winOf l.1
  | Option.none => if ∀ i j, b i j ≠ none then draw else noWinner

/-- The number of squares of the board that hold `m`. -/
def countMark (b : Board) (m : squareState) : Nat :=
  ((List.finRange 3).map fun i => (List.finRange 3).countP fun j => decide (b i j = m)).sum

/-- The results `checkForWinner` returned along a log, in order. -/
def results (log : List move) : List gameResult := log.map move.result

/-- The state a successful `placeMark` at `(i, j)` leaves. -/
def marked (state : gameState) (i j : Fin 3) : gameState :=
  ⟨fun i' j' => if i' = i ∧ j' = j then state.turnPlayer else state.board i' j', state.turnPlayer⟩

/-- The state at the head of the loop of `main` after `n` placements: cross
moves after an even number of them, and the board holds the marks written so
far. -/
def alternation (n : Nat) (state : gameState) : Prop :=
  state.turnPlayer = (if n % 2 = 0 then cross else circle) ∧
  countMark state.board cross = (n + 1) / 2 ∧ countMark state.board circle = n / 2

/-- Board X O . / X O . / X . . : cross holds column 0. -/
def crossColumnBoard : Board := ![![1, 2, 0], ![1, 2, 0], ![1, 0, 0]]

/-- Board X O . / X O . / . O X : circle holds column 1. -/
def circleColumnBoard : Board := ![![1, 2, 0], ![1, 2, 0], ![0, 2, 1]]

/-- Board X O X / X O O / X X O : full, cross holds column 0. -/
def fullColumnBoard : Board := ![![1, 2, 1], ![1, 2, 2], ![1, 1, 2]]

/-- Board X X X / O O . / . . . : the row scenario. -/
def rowScenarioBoard : Board := ![![1, 1, 1], ![2, 2, 0], ![0, 0, 0]]

/-- Board X O . / O X . / . . X : the diagonal scenario. -/
def diagonalScenarioBoard : Board := ![![1, 2, 0], ![2, 1, 0], ![0, 0, 1]]

/-- Board . . O / X O X / O X . : circle holds the diagonal from the top right. -/
def antidiagonalBoard : Board := ![![0, 0, 2], ![1, 2, 1], ![2, 1, 0]]

/-- Board X O X / X O O / O X X : the draw scenario. -/
def drawScenarioBoard : Board := ![![1, 2, 1], ![1, 2, 2], ![2, 1, 1]]

/-- Go: a call `state.checkForWinner()` as a step on the state.  The method
receives `state` by pointer; no statement of its body, the closure `checkLine`
included, assigns to a field of `state`, so the state after the call is the
state before it. -/
def checkForWinnerStep (fuel : Nat) (state : gameState) : Except Fault (gameResult × gameState) :=
  match checkForWinner fuel state with
  | Except.error f => Except.error f
  | Except.ok result => Except.ok (result, state)

/-- What a correct scan of the line with squares `x`, `y`, `z` returns:
`crossWon` exactly when the three are `cross`, `circleWon` exactly when the
three are `circle`, `noWinner` otherwise, and so `noWinner` whenever one of
them is `none`. -/
def lineCorrect (res : Except Fault gameResult) (x y z : squareState) : Prop :=
  (res = Except.ok crossWon ↔ x = cross ∧ y = cross ∧ z = cross) ∧
  (res = Except.ok circleWon ↔ x = circle ∧ y = circle ∧ z = circle) ∧
  (¬ (x = cross ∧ y = cross ∧ z = cross) → ¬ (x = circle ∧ y = circle ∧ z = circle) →
    res = Except.ok noWinner) ∧
  (x = none ∨ y = none ∨ z = none → res = Except.ok noWinner)

/-- The state at the head of the loop of `main` after `n` placements: the
players have alternated, the last `checkForWinner` returned `noWinner`, and
`n` of the nine squares are taken. -/
def loopHead (n : Nat) (state : gameState) : Prop :=
  alternation n state ∧ scanResult state.board = noWinner ∧ countMark state.board none + n = 9

/-- The number of lines, among the eight, whose three squares are all `cross`
or all `circle`. -/
def wonLines (b : Board) : Nat :=
  (referenceLines b).countP fun l =>
    decide ((l.1 = cross ∧ l.2.1 = cross ∧ l.2.2 = cross) ∨
      (l.1 = circle ∧ l.2.1 = circle ∧ l.2.2 = circle))

/-- The lines `checkForWinner` scans: the three rows and the two diagonals. -/
def scannedLines (b : Board) : List (squareState × squareState × squareState) :=
  [(b 0 0, b 0 1, b 0 2), (b 1 0, b 1 1, b 1 2), (b 2 0, b 2 1, b 2 2),
   (b 0 0, b 1 1, b 2 2), (b 0 2, b 1 1, b 2 0)]

/-- The number of rows and diagonals whose three squares are all `cross` or all
`circle`. -/
def wonScannedLines (b : Board) : Nat :=
  (scannedLines b).countP fun l =>
    decide ((l.1 = cross ∧ l.2.1 = cross ∧ l.2.2 = cross) ∨
      (l.1 = circle ∧ l.2.1 = circle ∧ l.2.2 = circle))

/-- A line through the square `(i, j)` holds `m` in its three squares. -/
def lineThrough (b : Board) (i j : Fin 3) (m : squareState) : Prop :=
  rowHolds b i m ∨ columnHolds b j m ∨ (i = j ∧ diagonalHolds b m) ∨
    (i.val + j.val = 2 ∧ antidiagonalHolds b m)

/-- Board X O O / X X X / O O X : cross holds row 1 and the diagonal from the
top left. -/
def doubleLineBoard : Board := ![![1, 2, 2], ![1, 1, 1], ![2, 2, 1]]

theorem lineWin_cases (a b c : squareState) :
    lineWin a b c = noWinner ∨ lineWin a b c = crossWon ∨ lineWin a b c = circleWon := by
  unfold lineWin
  split_ifs <;> simp

theorem Board.get_fin (b : Board) (i j : Fin 3) :
    b.get (i.val : Int) (j.val : Int) = Except.ok (b i j) := by
  unfold Board.get
  have hi := i.isLt
  have hj := j.isLt
  rw [dif_pos (by omega)]
  simp

theorem lineWin_step (a b c : squareState) :
    (if b = none then Except.ok noWinner
      else if a ≠ b then Except.ok noWinner
      else if c = none then Except.ok noWinner
      else if b ≠ c then Except.ok noWinner
      else if c = cross then Except.ok crossWon
      else if c = circle then Except.ok circleWon
      else Except.ok noWinner : Except Fault gameResult) = Except.ok (lineWin a b c) := by
  unfold lineWin
  split_ifs <;> simp_all

theorem checkLine_row (b : Board) (fuel : Nat) (r : Fin 3) :
    checkLine b (fuel + 3) (r.val : Int) 0 0 1 = Except.ok (lineWin (b r 0) (b r 1) (b r 2)) := by
  rw [← lineWin_step]
  fin_cases r <;> simp [checkLine, checkLineLoop, Board.get, boardSize]

theorem checkLine_diagonal (b : Board) (fuel : Nat) :
    checkLine b (fuel + 3) 0 0 1 1 = Except.ok (lineWin (b 0 0) (b 1 1) (b 2 2)) := by
  rw [← lineWin_step]
  simp [checkLine, checkLineLoop, Board.get, boardSize]

theorem checkLine_antidiagonal (b : Board) (fuel : Nat) :
    checkLine b (fuel + 3) 0 (boardSize - 1) 1 (-1)
      = Except.ok (lineWin (b 0 2) (b 1 1) (b 2 0)) := by
  rw [← lineWin_step]
  simp [checkLine, checkLineLoop, Board.get, boardSize]

theorem checkForWinner_eq_scanResult (fuel : Nat) (state : gameState) :
    checkForWinner (fuel + 3) state = Except.ok (scanResult state.board) := by
  have h0 : checkLine state.board (fuel + 3) 0 0 0 1 = _ := checkLine_row state.board fuel 0
  have h1 : checkLine state.board (fuel + 3) 1 0 0 1 = _ := checkLine_row state.board fuel 1
  have h2 : checkLine state.board (fuel + 3) 2 0 0 1 = _ := checkLine_row state.board fuel 2
  simp only [checkForWinner, scanLines, h0, h1, h2, checkLine_diagonal, checkLine_antidiagonal,
    scanResult, firstWin]
  generalize lineWin (state.board 0 0) (state.board 0 1) (state.board 0 2) = r0
  generalize lineWin (state.board 1 0) (state.board 1 1) (state.board 1 2) = r1
  generalize lineWin (state.board 2 0) (state.board 2 1) (state.board 2 2) = r2
  generalize lineWin (state.board 0 0) (state.board 1 1) (state.board 2 2) = d
  generalize lineWin (state.board 0 2) (state.board 1 1) (state.board 2 0) = a
  split_ifs <;> simp_all

theorem checkForWinner_of_fuel {fuel : Nat} (hfuel : 3 ≤ fuel) (state : gameState) :
    checkForWinner fuel state = Except.ok (scanResult state.board) := by
  obtain ⟨k, rfl⟩ := Nat.exists_eq_add_of_le hfuel
  rw [Nat.add_comm]
  exact checkForWinner_eq_scanResult k state

theorem hasNone_iff (b : Board) : hasNone b = true ↔ ∃ i j, b i j = none := by
  simp [hasNone, List.finRange, Fin.exists_fin_succ, or_assoc]

theorem lineWin_eq_crossWon (a b c : squareState) :
    lineWin a b c = crossWon ↔ a = cross ∧ b = cross ∧ c = cross := by
  unfold lineWin
  split_ifs <;> simp_all

theorem lineWin_eq_circleWon (a b c : squareState) :
    lineWin a b c = circleWon ↔ a = circle ∧ b = circle ∧ c = circle := by
  unfold lineWin
  split_ifs <;> simp_all

theorem lineWin_eq_noWinner (a b c : squareState) :
    lineWin a b c = noWinner ↔
      ¬ (a = cross ∧ b = cross ∧ c = cross) ∧ ¬ (a = circle ∧ b = circle ∧ c = circle) := by
  unfold lineWin
  split_ifs <;> simp_all

theorem lineWin_of_holds (m : squareState) (hm : m = cross ∨ m = circle) :
    lineWin m m m = winOf m := by
  rcases hm with rfl | rfl <;> simp [lineWin, winOf]

theorem winOf_ne_noWinner (m : squareState) (hm : m = cross ∨ m = circle) :
    winOf m ≠ noWinner := by
  rcases hm with rfl | rfl <;> simp [winOf]

/-- C1 (the code at the failing input): on the board X O . / X O . / X . . ,
where cross holds column 0, the reference evaluation of the specification is
`crossWon`, while `checkForWinner` returns `noWinner` however much fuel it is
given; the board arises in `main` after the placements (0,0), (0,1), (1,0),
(1,1), (2,0), and the loop goes on. -/
theorem checkForWinner_differs_from_reference :
    referenceEvaluate crossColumnBoard = crossWon ∧
    (∀ fuel, checkForWinner (fuel + 3) ⟨crossColumnBoard, cross⟩ = Except.ok noWinner) ∧
    ∃ log, main 3 [(0, 0), (0, 1), (1, 0), (1, 1), (2, 0)] = Except.ok log ∧
      ∃ m, log.getLast? = Option.some m ∧ m.result = noWinner ∧
        m.after.turnPlayer = cross ∧ ∀ i j, m.after.board i j = crossColumnBoard i j := by
  refine ⟨by decide, fun fuel => ?_, _, rfl, _, rfl, rfl, rfl, by decide⟩
  rw [checkForWinner_eq_scanResult]
  rfl

/-- C2 (the code at the failing inputs): on the board X O . / X O . / . O X ,
where circle holds column 1, `checkForWinner` returns `noWinner`, and on the
full board X O X / X O O / X X O , where cross holds column 0, it returns
`draw`. -/
theorem checkForWinner_misses_column :
    columnHolds circleColumnBoard 1 circle ∧
    (∀ fuel, checkForWinner (fuel + 3) ⟨circleColumnBoard, circle⟩ = Except.ok noWinner) ∧
    columnHolds fullColumnBoard 0 cross ∧
    (∀ fuel, checkForWinner (fuel + 3) ⟨fullColumnBoard, cross⟩ = Except.ok draw) := by
  refine ⟨by decide, fun fuel => ?_, by decide, fun fuel => ?_⟩ <;>
    rw [checkForWinner_eq_scanResult] <;> rfl

/-- C3: when some row holds the same mark other than `none` (that is, `cross`
or `circle`) in its three squares, `checkForWinner` returns the win of the mark
of the topmost such row: `crossWon` if that row is all `cross`, `circleWon` if
it is all `circle`. -/
theorem checkForWinner_topmost_row (fuel : Nat) (hfuel : 3 ≤ fuel) (state : gameState)
    (r : Fin 3) (m : squareState) (hm : m = cross ∨ m = circle)
    (hrow : rowHolds state.board r m)
    (htop : ∀ r', r' < r → ¬ rowHolds state.board r' cross ∧ ¬ rowHolds state.board r' circle) :
    (m = cross ∧ checkForWinner fuel state = Except.ok crossWon) ∨
    (m = circle ∧ checkForWinner fuel state = Except.ok circleWon) := by
  rw [checkForWinner_of_fuel hfuel]
  have key : scanResult state.board = winOf m := by
    obtain ⟨h0, h1, h2⟩ := hrow
    have hw := winOf_ne_noWinner m hm
    have hl := lineWin_of_holds m hm
    fin_cases r
    · simp only [scanResult, firstWin]
      simp only [Fin.zero_eta] at h0 h1 h2
      rw [h0, h1, h2, hl]
      simp [hw]
    · have t0 := htop 0 (by decide)
      have n0 := (lineWin_eq_noWinner (state.board 0 0) (state.board 0 1) (state.board 0 2)).2 t0
      simp only [scanResult, firstWin]
      simp only [Fin.mk_one] at h0 h1 h2
      rw [n0, h0, h1, h2, hl]
      simp [hw]
    · have t0 := htop 0 (by decide)
      have t1 := htop 1 (by decide)
      have n0 := (lineWin_eq_noWinner (state.board 0 0) (state.board 0 1) (state.board 0 2)).2 t0
      have n1 := (lineWin_eq_noWinner (state.board 1 0) (state.board 1 1) (state.board 1 2)).2 t1
      simp only [scanResult, firstWin]
      have h0' : state.board 2 0 = m := h0
      have h1' : state.board 2 1 = m := h1
      have h2' : state.board 2 2 = m := h2
      rw [n0, n1, h0', h1', h2', hl]
      simp [hw]
  rw [key]
  rcases hm with rfl | rfl
  · exact Or.inl ⟨rfl, rfl⟩
  · exact Or.inr ⟨rfl, rfl⟩

/-- C3 (witness): the board X X X / O O . / . . . , reached after the
placements (0,0), (1,0), (0,1), (1,1), (0,2), gives `crossWon`. -/
theorem checkForWinner_topmost_row_witness :
    (∃ log, main 3 [(0, 0), (1, 0), (0, 1), (1, 1), (0, 2)] = Except.ok log ∧
      ∃ m, log.getLast? = Option.some m ∧ m.result = crossWon ∧
        ∀ i j, m.after.board i j = rowScenarioBoard i j) ∧
    checkForWinner 3 ⟨rowScenarioBoard, cross⟩ = Except.ok crossWon :=
  ⟨⟨_, rfl, _, rfl, rfl, by decide⟩,
    ((checkForWinner_topmost_row 3 (by decide) ⟨rowScenarioBoard, cross⟩ 0 cross
      (Or.inl rfl) (by decide) (by decide)).resolve_right (fun h => absurd h.1 (by decide))).2⟩

theorem firstWin_mem (l : List gameResult) (h : firstWin l ≠ noWinner) : firstWin l ∈ l := by
  induction l with
  | nil => exact absurd rfl h
  | cons r rest ih =>
    unfold firstWin at h ⊢
    split_ifs at h ⊢ with hr
    · exact List.mem_cons_self _ _
    · exact List.mem_cons_of_mem _ (ih h)

theorem scanResult_win (b : Board) (w : gameResult) (hw : w = crossWon ∨ w = circleWon)
    (h : scanResult b = w) :
    lineWin (b 0 0) (b 0 1) (b 0 2) = w ∨ lineWin (b 1 0) (b 1 1) (b 1 2) = w ∨
    lineWin (b 2 0) (b 2 1) (b 2 2) = w ∨ lineWin (b 0 0) (b 1 1) (b 2 2) = w ∨
    lineWin (b 0 2) (b 1 1) (b 2 0) = w := by
  unfold scanResult at h
  simp only at h
  split_ifs at h with h1 h2
  · have hmem := firstWin_mem _ h1
    rw [h] at hmem
    simpa [eq_comm] using hmem
  · rcases hw with rfl | rfl <;> simp at h
  · rcases hw with rfl | rfl <;> simp at h

theorem scanResult_of_rows_lost (b : Board)
    (n0 : lineWin (b 0 0) (b 0 1) (b 0 2) = noWinner)
    (n1 : lineWin (b 1 0) (b 1 1) (b 1 2) = noWinner)
    (n2 : lineWin (b 2 0) (b 2 1) (b 2 2) = noWinner) :
    scanResult b =
      if lineWin (b 0 0) (b 1 1) (b 2 2) ≠ noWinner then lineWin (b 0 0) (b 1 1) (b 2 2)
      else if lineWin (b 0 2) (b 1 1) (b 2 0) ≠ noWinner then lineWin (b 0 2) (b 1 1) (b 2 0)
      else if hasNone b then noWinner else draw := by
  simp only [scanResult, firstWin, n0, n1, n2]
  split_ifs <;> simp_all

/-- C4: when no row is won and one of the two diagonals holds the same mark `m`
other than `none` (that is, `cross` or `circle`) in its three squares,
`checkForWinner` returns the win of `m`; in particular it does so when,
moreover, no column is won. -/
theorem checkForWinner_diagonal (fuel : Nat) (hfuel : 3 ≤ fuel) (state : gameState)
    (m : squareState) (hm : m = cross ∨ m = circle)
    (hrows : ∀ r, ¬ rowHolds state.board r cross ∧ ¬ rowHolds state.board r circle)
    (hdiag : diagonalHolds state.board m ∨ antidiagonalHolds state.board m) :
    (m = cross ∧ checkForWinner fuel state = Except.ok crossWon) ∨
    (m = circle ∧ checkForWinner fuel state = Except.ok circleWon) := by
  rw [checkForWinner_of_fuel hfuel]
  have n0 := (lineWin_eq_noWinner _ _ _).2 (hrows 0)
  have n1 := (lineWin_eq_noWinner _ _ _).2 (hrows 1)
  have n2 := (lineWin_eq_noWinner _ _ _).2 (hrows 2)
  have key : scanResult state.board = winOf m := by
    rw [scanResult_of_rows_lost _ n0 n1 n2]
    rcases hdiag with ⟨h0, h1, h2⟩ | ⟨h0, h1, h2⟩
    · rw [h0, h1, h2, lineWin_of_holds m hm, if_pos (winOf_ne_noWinner m hm)]
    · rw [h0, h1, h2, lineWin_of_holds m hm]
      rcases hm with rfl | rfl <;> simp [lineWin, winOf]
  rw [key]
  rcases hm with rfl | rfl
  · exact Or.inl ⟨rfl, rfl⟩
  · exact Or.inr ⟨rfl, rfl⟩

/-- C4 (witness): the board X O . / O X . / . . X , reached after the
placements (0,0), (0,1), (1,1), (1,0), (2,2), gives `crossWon`. -/
theorem checkForWinner_diagonal_witness :
    (∃ log, main 3 [(0, 0), (0, 1), (1, 1), (1, 0), (2, 2)] = Except.ok log ∧
      ∃ m, log.getLast? = Option.some m ∧ m.result = crossWon ∧
        ∀ i j, m.after.board i j = diagonalScenarioBoard i j) ∧
    checkForWinner 3 ⟨diagonalScenarioBoard, cross⟩ = Except.ok crossWon :=
  ⟨⟨_, rfl, _, rfl, rfl, by decide⟩,
    ((checkForWinner_diagonal 3 (by decide) ⟨diagonalScenarioBoard, cross⟩ cross
      (Or.inl rfl) (by decide) (Or.inl (by decide))).resolve_right
        (fun h => absurd h.1 (by decide))).2⟩

/-- C5: when none of the eight lines holds three equal marks other than `none`,
`checkForWinner` returns `draw` if no square is `none` and `noWinner` if some
square is `none`. -/
theorem checkForWinner_no_line (fuel : Nat) (hfuel : 3 ≤ fuel) (state : gameState)
    (hno : ¬ lineHolds state.board cross ∧ ¬ lineHolds state.board circle) :
    ((∀ i j, state.board i j ≠ none) → checkForWinner fuel state = Except.ok draw) ∧
    ((∃ i j, state.board i j = none) → checkForWinner fuel state = Except.ok noWinner) := by
  rw [checkForWinner_of_fuel hfuel]
  obtain ⟨hx, ho⟩ := hno
  simp only [lineHolds, not_or, not_exists] at hx ho
  have n0 := (lineWin_eq_noWinner _ _ _).2 ⟨hx.1 0, ho.1 0⟩
  have n1 := (lineWin_eq_noWinner _ _ _).2 ⟨hx.1 1, ho.1 1⟩
  have n2 := (lineWin_eq_noWinner _ _ _).2 ⟨hx.1 2, ho.1 2⟩
  have nd := (lineWin_eq_noWinner _ _ _).2 ⟨hx.2.2.1, ho.2.2.1⟩
  have na := (lineWin_eq_noWinner _ _ _).2 ⟨hx.2.2.2, ho.2.2.2⟩
  rw [scanResult_of_rows_lost _ n0 n1 n2, nd, na]
  constructor
  · intro hfull
    have : hasNone state.board = false := by
      rw [Bool.eq_false_iff, Ne, hasNone_iff]
      rintro ⟨i, j, hij⟩
      exact hfull i j hij
    simp [this]
  · intro hfree
    have : hasNone state.board = true := (hasNone_iff _).2 hfree
    simp [this]

/-- C5 (witness): the full board X O X / X O O / O X X gives `draw`. -/
theorem checkForWinner_no_line_witness :
    (¬ lineHolds drawScenarioBoard cross ∧ ¬ lineHolds drawScenarioBoard circle) ∧
    (∀ i j, drawScenarioBoard i j ≠ none) ∧
    checkForWinner 3 ⟨drawScenarioBoard, cross⟩ = Except.ok draw :=
  ⟨by decide, by decide,
    (checkForWinner_no_line 3 (by decide) ⟨drawScenarioBoard, cross⟩ (by decide)).1 (by decide)⟩

/-- C6: a win result is backed by a line: if `checkForWinner` returns
`crossWon`, some row, column or diagonal holds `cross` in its three squares,
and if it returns `circleWon`, some row, column or diagonal holds `circle` in
its three squares. -/
theorem checkForWinner_win_has_line (fuel : Nat) (hfuel : 3 ≤ fuel) (state : gameState) :
    (checkForWinner fuel state = Except.ok crossWon → lineHolds state.board cross) ∧
    (checkForWinner fuel state = Except.ok circleWon → lineHolds state.board circle) := by
  rw [checkForWinner_of_fuel hfuel]
  constructor
  · intro h
    have h' : scanResult state.board = crossWon := by injection h
    rcases scanResult_win _ _ (Or.inl rfl) h' with h | h | h | h | h <;>
      rw [lineWin_eq_crossWon] at h
    · exact Or.inl ⟨0, h⟩
    · exact Or.inl ⟨1, h⟩
    · exact Or.inl ⟨2, h⟩
    · exact Or.inr (Or.inr (Or.inl h))
    · exact Or.inr (Or.inr (Or.inr h))
  · intro h
    have h' : scanResult state.board = circleWon := by injection h
    rcases scanResult_win _ _ (Or.inr rfl) h' with h | h | h | h | h <;>
      rw [lineWin_eq_circleWon] at h
    · exact Or.inl ⟨0, h⟩
    · exact Or.inl ⟨1, h⟩
    · exact Or.inl ⟨2, h⟩
    · exact Or.inr (Or.inr (Or.inl h))
    · exact Or.inr (Or.inr (Or.inr h))

/-- C6 (witness): on the board . . O / X O X / O X . `checkForWinner` returns
`circleWon`, and circle holds the diagonal from the top right. -/
theorem checkForWinner_win_has_line_witness :
    checkForWinner 3 ⟨antidiagonalBoard, circle⟩ = Except.ok circleWon ∧
    lineHolds antidiagonalBoard circle :=
  ⟨rfl, (checkForWinner_win_has_line 3 (by decide) ⟨antidiagonalBoard, circle⟩).2 rfl⟩

theorem placeMark_outside (state : gameState) (row column : Int)
    (h : row < 0 ∨ 3 ≤ row ∨ column < 0 ∨ 3 ≤ column) :
    placeMark state row column
      = Except.ok (Option.some (placeError.positionOutOfBoundsError row column), state) := by
  unfold placeMark
  rw [if_pos]
  simp only [boardSize, ge_iff_le]
  omega

theorem placeMark_inside (state : gameState) (i j : Fin 3) :
    placeMark state (i.val : Int) (j.val : Int) =
      if state.board i j ≠ none then
        Except.ok (Option.some (placeError.markAlreadyExistsError (i.val : Int) (j.val : Int)), state)
      else Except.ok (Option.none, marked state i j) := by
  have hi := i.isLt
  have hj := j.isLt
  unfold placeMark
  rw [if_neg (by simp only [boardSize, ge_iff_le]; omega), Board.get_fin]
  simp only
  split_ifs with hsq
  · rfl
  · unfold Board.set
    rw [if_pos (by omega)]
    simp only [marked, Nat.cast_inj, Fin.val_inj]

theorem exists_fin_of_bounds (x : Int) (h0 : 0 ≤ x) (h3 : x < 3) : ∃ i : Fin 3, (i.val : Int) = x :=
  ⟨⟨x.toNat, by omega⟩, by simp [h0]⟩

/-- C7: for all integers `row` and `column` and every state, `placeMark`
returns a `positionOutOfBoundsError` exactly when `row` or `column` is outside
`[0,3)`; such an error carries `row` and `column`, and the state (board and
`turnPlayer`) is the one before the call.  On the empty board `placeMark(3,0)`
fails with `positionOutOfBoundsError{3,0}` and leaves the board empty. -/
theorem placeMark_positionOutOfBounds :
    (∀ (state : gameState) (row column : Int),
      ∃ e state', placeMark state row column = Except.ok (e, state') ∧
        ((∃ r c, e = Option.some (placeError.positionOutOfBoundsError r c)) ↔
          (row < 0 ∨ 3 ≤ row ∨ column < 0 ∨ 3 ≤ column)) ∧
        (∀ r c, e = Option.some (placeError.positionOutOfBoundsError r c) →
          r = row ∧ c = column ∧ state' = state)) ∧
    placeMark initialState 3 0
      = Except.ok (Option.some (placeError.positionOutOfBoundsError 3 0), initialState) ∧
    ∀ i j, initialState.board i j = none := by
  refine ⟨fun state row column => ?_, rfl, fun _ _ => rfl⟩
  by_cases h : row < 0 ∨ 3 ≤ row ∨ column < 0 ∨ 3 ≤ column
  · refine ⟨_, _, placeMark_outside state row column h, ⟨fun _ => h, fun _ => ⟨_, _, rfl⟩⟩, ?_⟩
    intro r c hrc
    injection hrc with hrc
    injection hrc with h1 h2
    exact ⟨h1.symm, h2.symm, rfl⟩
  · obtain ⟨i, rfl⟩ := exists_fin_of_bounds row (by omega) (by omega)
    obtain ⟨j, rfl⟩ := exists_fin_of_bounds column (by omega) (by omega)
    by_cases hsq : state.board i j ≠ none
    · refine ⟨_, _, (placeMark_inside state i j).trans (if_pos hsq), ?_, ?_⟩
      · exact ⟨fun ⟨r, c, hrc⟩ => by simp at hrc, fun h' => absurd h' h⟩
      · intro r c hrc
        simp at hrc
    · refine ⟨_, _, (placeMark_inside state i j).trans (if_neg hsq), ?_, ?_⟩
      · exact ⟨fun ⟨r, c, hrc⟩ => by simp at hrc, fun h' => absurd h' h⟩
      · intro r c hrc
        simp at hrc

/-- C8: for every state and every position inside the grid whose square is not
`none`, `placeMark` returns a `markAlreadyExistsError` carrying that row and
column and leaves the state (board and `turnPlayer`) as it was. -/
theorem placeMark_markAlreadyExists (state : gameState) (i j : Fin 3)
    (hsq : state.board i j ≠ none) :
    placeMark state (i.val : Int) (j.val : Int)
      = Except.ok (Option.some (placeError.markAlreadyExistsError (i.val : Int) (j.val : Int)),
          state) :=
  (placeMark_inside state i j).trans (if_pos hsq)

/-- C8 (witness): `placeMark(0,0)` succeeds on the empty board, and a second
`placeMark(0,0)` fails with `markAlreadyExistsError{0,0}`. -/
theorem placeMark_markAlreadyExists_witness :
    ∃ state', placeMark initialState 0 0 = Except.ok (Option.none, state') ∧
      placeMark state' 0 0
        = Except.ok (Option.some (placeError.markAlreadyExistsError 0 0), state') :=
  ⟨marked initialState 0 0, (placeMark_inside initialState 0 0).trans (if_neg (by decide)),
    placeMark_markAlreadyExists (marked initialState 0 0) 0 0 (by decide)⟩

/-- C9: for every state whose `turnPlayer` is `cross` or `circle` and every
position inside the grid whose square is `none`, `placeMark` returns no error,
and afterwards exactly one square differs from before: the one at the position
has changed from `none` to the mark of `turnPlayer`; the other eight squares and
`turnPlayer` are as before. -/
theorem placeMark_success (state : gameState) (i j : Fin 3)
    (hturn : state.turnPlayer = cross ∨ state.turnPlayer = circle)
    (hsq : state.board i j = none) :
    ∃ state', placeMark state (i.val : Int) (j.val : Int) = Except.ok (Option.none, state') ∧
      state'.board i j ≠ state.board i j ∧
      (state.turnPlayer = cross → state'.board i j = cross) ∧
      (state.turnPlayer = circle → state'.board i j = circle) ∧
      (∀ i' j', (i', j') ≠ (i, j) → state'.board i' j' = state.board i' j') ∧
      state'.turnPlayer = state.turnPlayer := by
  refine ⟨marked state i j, (placeMark_inside state i j).trans (if_neg (not_not.2 hsq)),
    ?_, ?_, ?_, ?_, rfl⟩
  · rw [hsq]
    simp only [marked, and_self, if_true]
    rcases hturn with h | h <;> rw [h] <;> decide
  · intro h
    simp only [marked, and_self, if_true, h]
  · intro h
    simp only [marked, and_self, if_true, h]
  · intro i' j' hne
    have : ¬ (i' = i ∧ j' = j) := fun h => hne (by rw [h.1, h.2])
    simp only [marked, this, if_false]

/-- C9 (witness): on the empty board with cross to move, `placeMark(1,1)`
succeeds and writes `cross` at (1,1) only. -/
theorem placeMark_success_witness :
    ∃ state', placeMark initialState 1 1 = Except.ok (Option.none, state') ∧
      state'.board 1 1 ≠ initialState.board 1 1 ∧
      (initialState.turnPlayer = cross → state'.board 1 1 = cross) ∧
      (initialState.turnPlayer = circle → state'.board 1 1 = circle) ∧
      (∀ i' j', (i', j') ≠ ((1 : Fin 3), (1 : Fin 3)) →
        state'.board i' j' = initialState.board i' j') ∧
      state'.turnPlayer = initialState.turnPlayer :=
  placeMark_success initialState 1 1 (Or.inl rfl) rfl

theorem fin3_cases (i : Fin 3) : i = 0 ∨ i = 1 ∨ i = 2 := by
  revert i
  decide

theorem countMark_eq (b : Board) (m : squareState) :
    countMark b m =
      (if b 0 0 = m then 1 else 0) + (if b 0 1 = m then 1 else 0) + (if b 0 2 = m then 1 else 0)
      + (if b 1 0 = m then 1 else 0) + (if b 1 1 = m then 1 else 0) + (if b 1 2 = m then 1 else 0)
      + (if b 2 0 = m then 1 else 0) + (if b 2 1 = m then 1 else 0)
      + (if b 2 2 = m then 1 else 0) := by
  simp [countMark, List.finRange, List.countP_cons]
  omega

theorem countMark_marked (state : gameState) (i j : Fin 3) (m : squareState)
    (hsq : state.board i j = none) (hm : m ≠ none) :
    countMark (marked state i j).board m
      = countMark state.board m + (if state.turnPlayer = m then 1 else 0) := by
  rw [countMark_eq, countMark_eq]
  have hne : ¬ (none = m) := fun h => hm h.symm
  rcases fin3_cases i with rfl | rfl | rfl <;> rcases fin3_cases j with rfl | rfl | rfl <;>
    simp [marked, hsq, hne] <;> omega

theorem nextTurn_board (state : gameState) : (nextTurn state).board = state.board := by
  unfold nextTurn
  split_ifs <;> rfl

theorem alternation_initial : alternation 0 initialState := by
  refine ⟨rfl, ?_, ?_⟩ <;> rw [countMark_eq] <;> simp [initialState]

theorem alternation_step (n : Nat) (state : gameState) (i j : Fin 3)
    (h : alternation n state) (hsq : state.board i j = none) :
    alternation (n + 1) (nextTurn (marked state i j)) := by
  obtain ⟨ht, hx, ho⟩ := h
  have hcx := countMark_marked state i j cross hsq (by decide)
  have hco := countMark_marked state i j circle hsq (by decide)
  unfold alternation
  rw [nextTurn_board]
  rcases Nat.mod_two_eq_zero_or_one n with hn | hn
  · rw [if_pos hn] at ht
    have hn1 : (n + 1) % 2 = 1 := by omega
    refine ⟨?_, ?_, ?_⟩
    · simp [nextTurn, marked, ht, hn1]
    · rw [hcx, hx, ht]
      simp
      omega
    · rw [hco, ho, ht]
      simp
      omega
  · rw [if_neg (by omega)] at ht
    have hn1 : (n + 1) % 2 = 0 := by omega
    refine ⟨?_, ?_, ?_⟩
    · simp [nextTurn, marked, ht, hn1]
    · rw [hcx, hx, ht]
      simp
      omega
    · rw [hco, ho, ht]
      simp
      omega

theorem mainLoop_log (fuel : Nat) (hfuel : 3 ≤ fuel) :
    ∀ (inputs : List (Int × Int)) (state : gameState) (n : Nat), alternation n state →
      ∃ log, mainLoop fuel state inputs = Except.ok log ∧
        ∀ k m, log.get? k = Option.some m →
          alternation (n + k) m.before ∧
          checkForWinner fuel m.after = Except.ok m.result ∧
          ∃ i j : Fin 3, (i.val : Int) = m.row ∧ (j.val : Int) = m.column ∧
            m.before.board i j = none ∧ m.after = marked m.before i j := by
  intro inputs
  induction inputs with
  | nil =>
    intro state n _
    exact ⟨[], rfl, fun k m hk => by simp at hk⟩
  | cons input rest ih =>
    intro state n hinv
    obtain ⟨row, column⟩ := input
    by_cases hout : row < 0 ∨ 3 ≤ row ∨ column < 0 ∨ 3 ≤ column
    · obtain ⟨log, hlog, hall⟩ := ih state n hinv
      refine ⟨log, ?_, hall⟩
      rw [mainLoop, placeMark_outside state row column hout]
      exact hlog
    · obtain ⟨i, rfl⟩ := exists_fin_of_bounds row (by omega) (by omega)
      obtain ⟨j, rfl⟩ := exists_fin_of_bounds column (by omega) (by omega)
      by_cases hsq : state.board i j ≠ none
      · obtain ⟨log, hlog, hall⟩ := ih state n hinv
        refine ⟨log, ?_, hall⟩
        rw [mainLoop, placeMark_inside, if_pos hsq]
        exact hlog
      · have hfree : state.board i j = none := not_not.1 hsq
        have hcheck := checkForWinner_of_fuel hfuel (marked state i j)
        by_cases hres : scanResult (marked state i j).board ≠ noWinner
        · refine ⟨[⟨state, i.val, j.val, marked state i j, scanResult (marked state i j).board⟩],
            ?_, ?_⟩
          · rw [mainLoop, placeMark_inside, if_neg hsq]
            simp only [hcheck, if_pos hres]
          · intro k m hk
            cases k with
            | zero =>
              simp only [List.get?_cons_zero, Option.some.injEq] at hk
              subst hk
              exact ⟨hinv, hcheck, i, j, rfl, rfl, hfree, rfl⟩
            | succ k => simp at hk
        · obtain ⟨log, hlog, hall⟩ :=
            ih (nextTurn (marked state i j)) (n + 1) (alternation_step n state i j hinv hfree)
          refine ⟨⟨state, i.val, j.val, marked state i j, scanResult (marked state i j).board⟩
            :: log, ?_, ?_⟩
          · rw [mainLoop, placeMark_inside, if_neg hsq]
            simp only [hcheck, if_neg hres, hlog]
          · intro k m hk
            cases k with
            | zero =>
              simp only [List.get?_cons_zero, Option.some.injEq] at hk
              subst hk
              exact ⟨hinv, hcheck, i, j, rfl, rfl, hfree, rfl⟩
            | succ k =>
              simp only [List.get?_cons_succ] at hk
              have := hall k m hk
              rwa [Nat.add_right_comm n 1 k] at this

/-- C10: in every run of the loop of `main` from the initial state (empty
board, cross to move), on any input and with fuel for `checkForWinner`, the
`k+1`-th successful placement (the entry of index `k` of the log) writes
`cross` when `k+1` is odd and `circle` when `k+1` is even, into a square that
was `none`, leaving the other squares; on the board before it and on the board
after it the number of `cross` marks is the number of `circle` marks or one
more; and before the move `turnPlayer` is `cross` exactly when the two numbers
are equal. -/
theorem main_alternates (fuel : Nat) (hfuel : 3 ≤ fuel) (inputs : List (Int × Int)) :
    ∃ log, main fuel inputs = Except.ok log ∧
      ∀ k m, log.get? k = Option.some m →
        (∃ i j : Fin 3, (i.val : Int) = m.row ∧ (j.val : Int) = m.column ∧
          m.before.board i j = none ∧
          m.after.board i j = (if (k + 1) % 2 = 1 then cross else circle) ∧
          ∀ i' j', (i', j') ≠ (i, j) → m.after.board i' j' = m.before.board i' j') ∧
        (countMark m.before.board cross = countMark m.before.board circle ∨
          countMark m.before.board cross = countMark m.before.board circle + 1) ∧
        (countMark m.after.board cross = countMark m.after.board circle ∨
          countMark m.after.board cross = countMark m.after.board circle + 1) ∧
        (m.before.turnPlayer = cross ↔
          countMark m.before.board cross = countMark m.before.board circle) := by
  obtain ⟨log, hlog, hall⟩ := mainLoop_log fuel hfuel inputs initialState 0 alternation_initial
  refine ⟨log, hlog, fun k m hk => ?_⟩
  obtain ⟨⟨ht, hx, ho⟩, _, i, j, hr, hc, hfree, hafter⟩ := hall k m hk
  rw [Nat.zero_add] at ht hx ho
  have hcx := countMark_marked m.before i j cross hfree (by decide)
  have hco := countMark_marked m.before i j circle hfree (by decide)
  rw [← hafter] at hcx hco
  have hcell : m.after.board i j = m.before.turnPlayer := by
    rw [hafter]
    simp [marked]
  have hrest : ∀ i' j', (i', j') ≠ (i, j) → m.after.board i' j' = m.before.board i' j' := by
    intro i' j' hne
    have : ¬ (i' = i ∧ j' = j) := fun h => hne (by rw [h.1, h.2])
    rw [hafter]
    simp only [marked, this, if_false]
  rcases Nat.mod_two_eq_zero_or_one k with hk2 | hk2
  · rw [if_pos hk2] at ht
    have hk1 : (k + 1) % 2 = 1 := by omega
    refine ⟨⟨i, j, hr, hc, hfree, ?_, hrest⟩, ?_, ?_, ?_⟩
    · rw [hcell, ht, if_pos hk1]
    · rw [hx, ho]
      omega
    · rw [hcx, hco, hx, ho, ht]
      simp
      omega
    · rw [hx, ho, ht]
      simp
      omega
  · rw [if_neg (by omega)] at ht
    have hk1 : ¬ (k + 1) % 2 = 1 := by omega
    refine ⟨⟨i, j, hr, hc, hfree, ?_, hrest⟩, ?_, ?_, ?_⟩
    · rw [hcell, ht, if_neg hk1]
    · rw [hx, ho]
      omega
    · rw [hcx, hco, hx, ho, ht]
      simp
      omega
    · rw [hx, ho, ht]
      simp
      omega

/-- C10 (witness): the run on the inputs (1,1), (0,0), (0,0), (3,1), (2,2), of
which the third and the fourth are refused, makes three placements, none of
them ending the game, and has the properties of C10. -/
theorem main_alternates_witness :
    (main 3 [(1, 1), (0, 0), (0, 0), (3, 1), (2, 2)]).map results
      = Except.ok [noWinner, noWinner, noWinner] ∧
    ∃ log, main 3 [(1, 1), (0, 0), (0, 0), (3, 1), (2, 2)] = Except.ok log ∧
      ∀ k m, log.get? k = Option.some m →
        (∃ i j : Fin 3, (i.val : Int) = m.row ∧ (j.val : Int) = m.column ∧
          m.before.board i j = none ∧
          m.after.board i j = (if (k + 1) % 2 = 1 then cross else circle) ∧
          ∀ i' j', (i', j') ≠ (i, j) → m.after.board i' j' = m.before.board i' j') ∧
        (countMark m.before.board cross = countMark m.before.board circle ∨
          countMark m.before.board cross = countMark m.before.board circle + 1) ∧
        (countMark m.after.board cross = countMark m.after.board circle ∨
          countMark m.after.board cross = countMark m.after.board circle + 1) ∧
        (m.before.turnPlayer = cross ↔
          countMark m.before.board cross = countMark m.before.board circle) :=
  ⟨rfl, main_alternates 3 (by decide) [(1, 1), (0, 0), (0, 0), (3, 1), (2, 2)]⟩

theorem placeMark_keeps (state : gameState) (row column : Int) (i j : Fin 3)
    (hsq : state.board i j ≠ none) :
    ∃ e state', placeMark state row column = Except.ok (e, state') ∧
      state'.board i j = state.board i j ∧ state'.turnPlayer = state.turnPlayer := by
  by_cases hout : row < 0 ∨ 3 ≤ row ∨ column < 0 ∨ 3 ≤ column
  · exact ⟨_, _, placeMark_outside state row column hout, rfl, rfl⟩
  · obtain ⟨i0, rfl⟩ := exists_fin_of_bounds row (by omega) (by omega)
    obtain ⟨j0, rfl⟩ := exists_fin_of_bounds column (by omega) (by omega)
    by_cases h0 : state.board i0 j0 ≠ none
    · exact ⟨_, _, (placeMark_inside state i0 j0).trans (if_pos h0), rfl, rfl⟩
    · refine ⟨_, _, (placeMark_inside state i0 j0).trans (if_neg h0), ?_, rfl⟩
      have hne : ¬ (i = i0 ∧ j = j0) := by
        rintro ⟨rfl, rfl⟩
        exact h0 hsq
      simp only [marked, hne, if_false]

theorem checkForWinnerStep_of_fuel {fuel : Nat} (hfuel : 3 ≤ fuel) (state : gameState) :
    checkForWinnerStep fuel state = Except.ok (scanResult state.board, state) := by
  unfold checkForWinnerStep
  rw [checkForWinner_of_fuel hfuel]

/-- C11: no operation erases or overwrites a mark: a square that is not `none`
holds the same value after a call of `placeMark` with any integer arguments
(which returns, with or without an error), after `nextTurn` and after
`checkForWinner`. -/
theorem marks_are_kept (fuel : Nat) (hfuel : 3 ≤ fuel) (state : gameState) (row column : Int)
    (i j : Fin 3) (hsq : state.board i j ≠ none) :
    (∃ e state', placeMark state row column = Except.ok (e, state') ∧
      state'.board i j = state.board i j) ∧
    (nextTurn state).board i j = state.board i j ∧
    (∃ result state', checkForWinnerStep fuel state = Except.ok (result, state') ∧
      state'.board i j = state.board i j) := by
  refine ⟨?_, ?_, ?_⟩
  · obtain ⟨e, state', h, hb, _⟩ := placeMark_keeps state row column i j hsq
    exact ⟨e, state', h, hb⟩
  · rw [nextTurn_board]
  · exact ⟨_, _, checkForWinnerStep_of_fuel hfuel state, rfl⟩

/-- C11 (witness): with `cross` at (0,0), a successful `placeMark(1,1)`, a
refused `placeMark(0,0)`, `nextTurn` and `checkForWinner` all leave `cross` at
(0,0). -/
theorem marks_are_kept_witness :
    ((∃ e state', placeMark (marked initialState 0 0) 1 1 = Except.ok (e, state') ∧
      state'.board 0 0 = (marked initialState 0 0).board 0 0) ∧
    (nextTurn (marked initialState 0 0)).board 0 0 = (marked initialState 0 0).board 0 0 ∧
    (∃ result state', checkForWinnerStep 3 (marked initialState 0 0)
        = Except.ok (result, state') ∧
      state'.board 0 0 = (marked initialState 0 0).board 0 0)) ∧
    (marked initialState 0 0).board 0 0 = cross :=
  ⟨marks_are_kept 3 (by decide) (marked initialState 0 0) 1 1 0 0 (by decide), by decide⟩

/-- C12: `nextTurn` sets `turnPlayer` to `circle` when it was `cross` and to
`cross` when it was `circle`, and leaves every square of the board as it
was. -/
theorem nextTurn_flips (state : gameState) :
    (state.turnPlayer = cross → (nextTurn state).turnPlayer = circle) ∧
    (state.turnPlayer = circle → (nextTurn state).turnPlayer = cross) ∧
    ∀ i j, (nextTurn state).board i j = state.board i j := by
  refine ⟨fun h => ?_, fun h => ?_, fun i j => by rw [nextTurn_board]⟩
  · simp [nextTurn, h]
  · simp [nextTurn, h]

/-- C13: for a state whose `turnPlayer` is `cross` or `circle`, two calls of
`nextTurn` give back the `turnPlayer`, and with it the whole state. -/
theorem nextTurn_twice (state : gameState)
    (hturn : state.turnPlayer = cross ∨ state.turnPlayer = circle) :
    (nextTurn (nextTurn state)).turnPlayer = state.turnPlayer ∧
    nextTurn (nextTurn state) = state := by
  obtain ⟨b, t⟩ := state
  simp only at hturn
  rcases hturn with rfl | rfl <;> simp [nextTurn]

/-- C13 (witness): from the initial state, where cross moves, two calls of
`nextTurn` give the initial state back. -/
theorem nextTurn_twice_witness :
    initialState.turnPlayer = cross ∧
    (nextTurn (nextTurn initialState)).turnPlayer = initialState.turnPlayer ∧
    nextTurn (nextTurn initialState) = initialState :=
  ⟨rfl, nextTurn_twice initialState (Or.inl rfl)⟩

/-- C14: `checkForWinner` is a function of the board alone: a call returns a
result and leaves the board and `turnPlayer` as they were, and a call on any
state with the same board, whatever its `turnPlayer`, returns the same result;
so does a repeated call. -/
theorem checkForWinner_pure (fuel : Nat) (hfuel : 3 ≤ fuel) (state : gameState) :
    ∃ result, checkForWinnerStep fuel state = Except.ok (result, state) ∧
      checkForWinner fuel state = Except.ok result ∧
      ∀ other : gameState, other.board = state.board →
        checkForWinner fuel other = Except.ok result ∧
        checkForWinnerStep fuel other = Except.ok (result, other) := by
  refine ⟨scanResult state.board, checkForWinnerStep_of_fuel hfuel state,
    checkForWinner_of_fuel hfuel state, fun other hb => ?_⟩
  rw [checkForWinner_of_fuel hfuel, checkForWinnerStep_of_fuel hfuel, hb]
  exact ⟨rfl, rfl⟩

/-- C14 (witness): on the board X X X / O O . / . . . the call returns
`crossWon` and leaves the state, with cross as with circle to move. -/
theorem checkForWinner_pure_witness :
    checkForWinnerStep 3 ⟨rowScenarioBoard, cross⟩
      = Except.ok (crossWon, ⟨rowScenarioBoard, cross⟩) ∧
    checkForWinnerStep 3 ⟨rowScenarioBoard, circle⟩
      = Except.ok (crossWon, ⟨rowScenarioBoard, circle⟩) ∧
    ∃ result, checkForWinnerStep 3 ⟨rowScenarioBoard, cross⟩
        = Except.ok (result, ⟨rowScenarioBoard, cross⟩) ∧
      checkForWinner 3 ⟨rowScenarioBoard, cross⟩ = Except.ok result ∧
      ∀ other : gameState, other.board = rowScenarioBoard →
        checkForWinner 3 other = Except.ok result ∧
        checkForWinnerStep 3 other = Except.ok (result, other) :=
  ⟨rfl, rfl, checkForWinner_pure 3 (by decide) ⟨rowScenarioBoard, cross⟩⟩

theorem checkLine_column (b : Board) (fuel : Nat) (c : Fin 3) :
    checkLine b (fuel + 3) 0 (c.val : Int) 1 0 = Except.ok (lineWin (b 0 c) (b 1 c) (b 2 c)) := by
  rw [← lineWin_step]
  rcases fin3_cases c with rfl | rfl | rfl <;> simp [checkLine, checkLineLoop, Board.get, boardSize]

theorem lineCorrect_lineWin (x y z : squareState) :
    lineCorrect (Except.ok (lineWin x y z)) x y z := by
  have hx := lineWin_eq_crossWon x y z
  have ho := lineWin_eq_circleWon x y z
  have hn := lineWin_eq_noWinner x y z
  refine ⟨?_, ?_, ?_, ?_⟩
  · rw [← hx]
    exact ⟨fun h => by injection h, fun h => by rw [h]⟩
  · rw [← ho]
    exact ⟨fun h => by injection h, fun h => by rw [h]⟩
  · intro h1 h2
    rw [hn.2 ⟨h1, h2⟩]
  · intro h
    rw [hn.2 ⟨?_, ?_⟩]
    · rintro ⟨rfl, rfl, rfl⟩
      rcases h with h | h | h <;> exact absurd h (by decide)
    · rintro ⟨rfl, rfl, rfl⟩
      rcases h with h | h | h <;> exact absurd h (by decide)

theorem firstWin_cases (l : List gameResult)
    (hl : ∀ r ∈ l, r = noWinner ∨ r = crossWon ∨ r = circleWon) :
    firstWin l = noWinner ∨ firstWin l = crossWon ∨ firstWin l = circleWon := by
  by_cases h : firstWin l ≠ noWinner
  · exact hl _ (firstWin_mem l h)
  · exact Or.inl (not_not.1 h)

theorem scanResult_cases (b : Board) :
    scanResult b = noWinner ∨ scanResult b = crossWon ∨ scanResult b = circleWon ∨
      scanResult b = draw := by
  have hl := firstWin_cases [lineWin (b 0 0) (b 0 1) (b 0 2), lineWin (b 1 0) (b 1 1) (b 1 2),
    lineWin (b 2 0) (b 2 1) (b 2 2), lineWin (b 0 0) (b 1 1) (b 2 2),
    lineWin (b 0 2) (b 1 1) (b 2 0)] (by
      intro r hr
      simp only [List.mem_cons, List.mem_singleton, List.not_mem_nil, or_false] at hr
      rcases hr with h | h | h | h | h <;> rw [h] <;> exact lineWin_cases _ _ _)
  unfold scanResult
  simp only
  split_ifs with h1 h2
  · rcases hl with h | h | h
    · exact absurd h h1
    · exact Or.inr (Or.inl h)
    · exact Or.inr (Or.inr (Or.inl h))
  · exact Or.inl rfl
  · exact Or.inr (Or.inr (Or.inr rfl))

/-- C15: the core operations are total.  With fuel for the three loop tests of
a line, `checkForWinner` returns one of the four results, and each of its
`checkLine` calls (the rows, scanned twice, and the two diagonals) returns a
result, none of them reaching outside the grid; for all integers `row`,
`column`, `placeMark` returns, without an access outside the grid, either
success or one of the two errors; `nextTurn` is a function without a failure
case. -/
theorem operations_total (fuel : Nat) (hfuel : 3 ≤ fuel) (state : gameState)
    (row column : Int) :
    (∃ result, checkForWinner fuel state = Except.ok result ∧
      (result = noWinner ∨ result = crossWon ∨ result = circleWon ∨ result = draw)) ∧
    (∀ r : Fin 3, ∃ result, checkLine state.board fuel (r.val : Int) 0 0 1 = Except.ok result) ∧
    (∃ result, checkLine state.board fuel 0 0 1 1 = Except.ok result) ∧
    (∃ result, checkLine state.board fuel 0 (boardSize - 1) 1 (-1) = Except.ok result) ∧
    (∃ e state', placeMark state row column = Except.ok (e, state') ∧
      (e = Option.none ∨ e = Option.some (placeError.positionOutOfBoundsError row column) ∨
        e = Option.some (placeError.markAlreadyExistsError row column))) ∧
    (∃ state', nextTurn state = state') := by
  obtain ⟨k, rfl⟩ := Nat.exists_eq_add_of_le hfuel
  rw [Nat.add_comm 3 k]
  refine ⟨⟨_, checkForWinner_eq_scanResult k state, ?_⟩,
    fun r => ⟨_, checkLine_row state.board k r⟩, ⟨_, checkLine_diagonal state.board k⟩,
    ⟨_, checkLine_antidiagonal state.board k⟩, ?_, ⟨_, rfl⟩⟩
  · exact scanResult_cases state.board
  · by_cases hout : row < 0 ∨ 3 ≤ row ∨ column < 0 ∨ 3 ≤ column
    · exact ⟨_, _, placeMark_outside state row column hout, Or.inr (Or.inl rfl)⟩
    · obtain ⟨i, rfl⟩ := exists_fin_of_bounds row (by omega) (by omega)
      obtain ⟨j, rfl⟩ := exists_fin_of_bounds column (by omega) (by omega)
      by_cases hsq : state.board i j ≠ none
      · exact ⟨_, _, (placeMark_inside state i j).trans (if_pos hsq), Or.inr (Or.inr rfl)⟩
      · exact ⟨_, _, (placeMark_inside state i j).trans (if_neg hsq), Or.inl rfl⟩

/-- C15 (witness): on the empty board with three units of fuel
`checkForWinner` returns `noWinner`, and `placeMark(-1, 7)` returns the
out-of-bounds error. -/
theorem operations_total_witness :
    checkForWinner 3 initialState = Except.ok noWinner ∧
    placeMark initialState (-1) 7
      = Except.ok (Option.some (placeError.positionOutOfBoundsError (-1) 7), initialState) ∧
    (∃ result, checkForWinner 3 initialState = Except.ok result ∧
      (result = noWinner ∨ result = crossWon ∨ result = circleWon ∨ result = draw)) ∧
    (∀ r : Fin 3, ∃ result,
      checkLine initialState.board 3 (r.val : Int) 0 0 1 = Except.ok result) ∧
    (∃ result, checkLine initialState.board 3 0 0 1 1 = Except.ok result) ∧
    (∃ result, checkLine initialState.board 3 0 (boardSize - 1) 1 (-1) = Except.ok result) ∧
    (∃ e state', placeMark initialState (-1) 7 = Except.ok (e, state') ∧
      (e = Option.none ∨ e = Option.some (placeError.positionOutOfBoundsError (-1) 7) ∨
        e = Option.some (placeError.markAlreadyExistsError (-1) 7))) ∧
    (∃ state', nextTurn initialState = state') :=
  ⟨rfl, rfl, operations_total 3 (by decide) initialState (-1) 7⟩

/-- C17: the line scan `checkLine` is correct on each of the eight lines: on
the rows (start `(r,0)`, step `(0,1)`), the columns (start `(0,c)`, step
`(1,0)`), the diagonal (start `(0,0)`, step `(1,1)`) and the other diagonal
(start `(0,2)`, step `(1,-1)`) it returns `crossWon` exactly when the three
squares are `cross`, `circleWon` exactly when they are `circle`, and `noWinner`
otherwise, in particular when one of the squares, the first included, is
`none`. -/
theorem checkLine_correct (fuel : Nat) (hfuel : 3 ≤ fuel) (b : Board) :
    (∀ r : Fin 3, lineCorrect (checkLine b fuel (r.val : Int) 0 0 1) (b r 0) (b r 1) (b r 2)) ∧
    (∀ c : Fin 3, lineCorrect (checkLine b fuel 0 (c.val : Int) 1 0) (b 0 c) (b 1 c) (b 2 c)) ∧
    lineCorrect (checkLine b fuel 0 0 1 1) (b 0 0) (b 1 1) (b 2 2) ∧
    lineCorrect (checkLine b fuel 0 2 1 (-1)) (b 0 2) (b 1 1) (b 2 0) := by
  obtain ⟨k, rfl⟩ := Nat.exists_eq_add_of_le hfuel
  rw [Nat.add_comm 3 k]
  refine ⟨fun r => ?_, fun c => ?_, ?_, ?_⟩
  · rw [checkLine_row]
    exact lineCorrect_lineWin _ _ _
  · rw [checkLine_column]
    exact lineCorrect_lineWin _ _ _
  · rw [checkLine_diagonal]
    exact lineCorrect_lineWin _ _ _
  · have h := checkLine_antidiagonal b k
    have h2 : boardSize - 1 = 2 := by decide
    rw [h2] at h
    rw [h]
    exact lineCorrect_lineWin _ _ _

/-- C17 (witness): on the board . . O / X O X / O X . the scan of row 0, which
starts on a `none` square, returns `noWinner`, the scan of column 0 returns
`noWinner`, and the scan of the diagonal from the top right returns
`circleWon`. -/
theorem checkLine_correct_witness :
    checkLine antidiagonalBoard 3 0 0 0 1 = Except.ok noWinner ∧
    checkLine antidiagonalBoard 3 0 0 1 0 = Except.ok noWinner ∧
    checkLine antidiagonalBoard 3 0 2 1 (-1) = Except.ok circleWon ∧
    lineCorrect (checkLine antidiagonalBoard 3 0 2 1 (-1))
      (antidiagonalBoard 0 2) (antidiagonalBoard 1 1) (antidiagonalBoard 2 0) :=
  ⟨rfl, rfl, rfl, (checkLine_correct 3 (by decide) antidiagonalBoard).2.2.2⟩

theorem countMark_marked_none (state : gameState) (i j : Fin 3)
    (hsq : state.board i j = none) (hturn : state.turnPlayer ≠ none) :
    countMark (marked state i j).board none + 1 = countMark state.board none := by
  rw [countMark_eq, countMark_eq]
  rcases fin3_cases i with rfl | rfl | rfl <;> rcases fin3_cases j with rfl | rfl | rfl <;>
    simp [marked, hsq, hturn] <;> omega

theorem alternation_turn (n : Nat) (state : gameState) (h : alternation n state) :
    state.turnPlayer = cross ∨ state.turnPlayer = circle := by
  obtain ⟨ht, _, _⟩ := h
  rw [ht]
  split_ifs
  · exact Or.inl rfl
  · exact Or.inr rfl

theorem loopHead_initial : loopHead 0 initialState := by
  refine ⟨alternation_initial, rfl, ?_⟩
  rw [countMark_eq]
  simp [initialState]

theorem loopHead_step (n : Nat) (state : gameState) (i j : Fin 3)
    (h : loopHead n state) (hsq : state.board i j = none)
    (hres : scanResult (marked state i j).board = noWinner) :
    loopHead (n + 1) (nextTurn (marked state i j)) := by
  obtain ⟨ha, _, hc⟩ := h
  refine ⟨alternation_step n state i j ha hsq, ?_, ?_⟩
  · rw [nextTurn_board]
    exact hres
  · rw [nextTurn_board]
    have hturn : state.turnPlayer ≠ none := by
      rcases alternation_turn n state ha with h | h <;> rw [h] <;> decide
    have := countMark_marked_none state i j hsq hturn
    omega

theorem mainLoop_trace (fuel : Nat) (hfuel : 3 ≤ fuel) :
    ∀ (inputs : List (Int × Int)) (state : gameState) (n : Nat), loopHead n state →
      ∃ log, mainLoop fuel state inputs = Except.ok log ∧
        ∀ k m, log.get? k = Option.some m →
          loopHead (n + k) m.before ∧
          m.result = scanResult m.after.board ∧
          (k + 1 < log.length → m.result = noWinner) ∧
          ∃ i j : Fin 3, (i.val : Int) = m.row ∧ (j.val : Int) = m.column ∧
            m.before.board i j = none ∧ m.after = marked m.before i j := by
  intro inputs
  induction inputs with
  | nil =>
    intro state n _
    exact ⟨[], rfl, fun k m hk => by simp at hk⟩
  | cons input rest ih =>
    intro state n hinv
    obtain ⟨row, column⟩ := input
    by_cases hout : row < 0 ∨ 3 ≤ row ∨ column < 0 ∨ 3 ≤ column
    · obtain ⟨log, hlog, hall⟩ := ih state n hinv
      refine ⟨log, ?_, hall⟩
      rw [mainLoop, placeMark_outside state row column hout]
      exact hlog
    · obtain ⟨i, rfl⟩ := exists_fin_of_bounds row (by omega) (by omega)
      obtain ⟨j, rfl⟩ := exists_fin_of_bounds column (by omega) (by omega)
      by_cases hsq : state.board i j ≠ none
      · obtain ⟨log, hlog, hall⟩ := ih state n hinv
        refine ⟨log, ?_, hall⟩
        rw [mainLoop, placeMark_inside, if_pos hsq]
        exact hlog
      · have hfree : state.board i j = none := not_not.1 hsq
        have hcheck := checkForWinner_of_fuel hfuel (marked state i j)
        by_cases hres : scanResult (marked state i j).board ≠ noWinner
        · refine ⟨[⟨state, i.val, j.val, marked state i j, scanResult (marked state i j).board⟩],
            ?_, ?_⟩
          · rw [mainLoop, placeMark_inside, if_neg hsq]
            simp only [hcheck, if_pos hres]
          · intro k m hk
            cases k with
            | zero =>
              simp only [List.get?_cons_zero, Option.some.injEq] at hk
              subst hk
              exact ⟨hinv, rfl, fun h => by simp at h, i, j, rfl, rfl, hfree, rfl⟩
            | succ k => simp at hk
        · obtain ⟨log, hlog, hall⟩ := ih (nextTurn (marked state i j)) (n + 1)
            (loopHead_step n state i j hinv hfree (not_not.1 hres))
          refine ⟨⟨state, i.val, j.val, marked state i j, scanResult (marked state i j).board⟩
            :: log, ?_, ?_⟩
          · rw [mainLoop, placeMark_inside, if_neg hsq]
            simp only [hcheck, if_neg hres, hlog]
          · intro k m hk
            cases k with
            | zero =>
              simp only [List.get?_cons_zero, Option.some.injEq] at hk
              subst hk
              exact ⟨hinv, rfl, fun _ => not_not.1 hres, i, j, rfl, rfl, hfree, rfl⟩
            | succ k =>
              simp only [List.get?_cons_succ] at hk
              obtain ⟨h1, h2, h3, h4⟩ := hall k m hk
              refine ⟨?_, h2, fun hlen => h3 ?_, h4⟩
              · rwa [Nat.add_right_comm n 1 k] at h1
              · simpa using hlen

theorem firstWin_eq_noWinner (l : List gameResult) (h : firstWin l = noWinner) :
    ∀ r ∈ l, r = noWinner := by
  induction l with
  | nil => intro r hr; simp at hr
  | cons a rest ih =>
    unfold firstWin at h
    split_ifs at h with ha
    · exact absurd h ha
    · intro r hr
      rcases List.mem_cons.1 hr with rfl | hr
      · exact not_not.1 ha
      · exact ih h r hr

theorem scanResult_eq_noWinner (b : Board) (h : scanResult b = noWinner) :
    lineWin (b 0 0) (b 0 1) (b 0 2) = noWinner ∧ lineWin (b 1 0) (b 1 1) (b 1 2) = noWinner ∧
    lineWin (b 2 0) (b 2 1) (b 2 2) = noWinner ∧ lineWin (b 0 0) (b 1 1) (b 2 2) = noWinner ∧
    lineWin (b 0 2) (b 1 1) (b 2 0) = noWinner := by
  unfold scanResult at h
  simp only at h
  split_ifs at h with h1 h2
  · exact absurd h h1
  · have hall := firstWin_eq_noWinner _ (not_not.1 h1)
    exact ⟨hall _ (by simp), hall _ (by simp), hall _ (by simp), hall _ (by simp),
      hall _ (by simp)⟩
  · exact absurd h (by decide)

theorem quiet_lines (b : Board) (h : scanResult b = noWinner) (w : squareState)
    (hw : w = cross ∨ w = circle) :
    (∀ r, ¬ rowHolds b r w) ∧ ¬ diagonalHolds b w ∧ ¬ antidiagonalHolds b w := by
  obtain ⟨n0, n1, n2, nd, na⟩ := scanResult_eq_noWinner b h
  rw [lineWin_eq_noWinner] at n0 n1 n2 nd na
  refine ⟨fun r => ?_, ?_, ?_⟩
  · rcases fin3_cases r with rfl | rfl | rfl <;> rcases hw with rfl | rfl
    · exact n0.1
    · exact n0.2
    · exact n1.1
    · exact n1.2
    · exact n2.1
    · exact n2.2
  · rcases hw with rfl | rfl
    · exact nd.1
    · exact nd.2
  · rcases hw with rfl | rfl
    · exact na.1
    · exact na.2

theorem marked_board_same (state : gameState) (i j i' j' : Fin 3) (h : ¬ (i' = i ∧ j' = j)) :
    (marked state i j).board i' j' = state.board i' j' := by
  simp only [marked, h, if_false]

theorem marked_board_here (state : gameState) (i j : Fin 3) :
    (marked state i j).board i j = state.turnPlayer := by
  simp [marked]

theorem won_through (state : gameState) (i j : Fin 3) (hq : scanResult state.board = noWinner)
    (w : squareState) (hw : w = cross ∨ w = circle) :
    (∀ r, rowHolds (marked state i j).board r w → r = i ∧ w = state.turnPlayer) ∧
    (diagonalHolds (marked state i j).board w → i = j ∧ w = state.turnPlayer) ∧
    (antidiagonalHolds (marked state i j).board w →
      i.val + j.val = 2 ∧ w = state.turnPlayer) := by
  obtain ⟨hr, hd, ha⟩ := quiet_lines state.board hq w hw
  refine ⟨fun r h => ?_, fun h => ?_, fun h => ?_⟩
  · by_cases hri : r = i
    · subst hri
      refine ⟨rfl, ?_⟩
      obtain ⟨h0, h1, h2⟩ := h
      rcases fin3_cases j with rfl | rfl | rfl
      · rw [← h0, marked_board_here]
      · rw [← h1, marked_board_here]
      · rw [← h2, marked_board_here]
    · exfalso
      apply hr r
      obtain ⟨h0, h1, h2⟩ := h
      rw [marked_board_same _ _ _ _ _ (fun h => hri h.1)] at h0 h1 h2
      exact ⟨h0, h1, h2⟩
  · obtain ⟨h0, h1, h2⟩ := h
    by_cases hij : i = j
    · subst hij
      refine ⟨rfl, ?_⟩
      rcases fin3_cases i with rfl | rfl | rfl
      · rw [← h0, marked_board_here]
      · rw [← h1, marked_board_here]
      · rw [← h2, marked_board_here]
    · exfalso
      apply hd
      rw [marked_board_same _ _ _ _ _ (fun h => hij (h.1.symm.trans h.2))] at h0 h1 h2
      exact ⟨h0, h1, h2⟩
  · obtain ⟨h0, h1, h2⟩ := h
    by_cases hij : i.val + j.val = 2
    · refine ⟨hij, ?_⟩
      rcases fin3_cases i with rfl | rfl | rfl <;> rcases fin3_cases j with rfl | rfl | rfl <;>
        simp at hij
      · rw [← h0, marked_board_here]
      · rw [← h1, marked_board_here]
      · rw [← h2, marked_board_here]
    · exfalso
      apply ha
      rw [marked_board_same _ _ _ _ _ (fun h => hij (by rw [← h.1, ← h.2]; rfl))] at h0 h1 h2
      exact ⟨h0, h1, h2⟩

theorem wonScannedLines_eq (b : Board) :
    wonScannedLines b =
      (if rowHolds b 0 cross ∨ rowHolds b 0 circle then 1 else 0)
      + (if rowHolds b 1 cross ∨ rowHolds b 1 circle then 1 else 0)
      + (if rowHolds b 2 cross ∨ rowHolds b 2 circle then 1 else 0)
      + (if diagonalHolds b cross ∨ diagonalHolds b circle then 1 else 0)
      + (if antidiagonalHolds b cross ∨ antidiagonalHolds b circle then 1 else 0) := by
  simp only [wonScannedLines, scannedLines, rowHolds, diagonalHolds, antidiagonalHolds,
    List.countP_cons, List.countP_nil, decide_eq_true_eq]
  omega

theorem six_marks (b : Board) (t : squareState)
    (h10 : b 1 0 = t) (h12 : b 1 2 = t) (h00 : b 0 0 = t) (h22 : b 2 2 = t)
    (h02 : b 0 2 = t) (h20 : b 2 0 = t) : 6 ≤ countMark b t := by
  rw [countMark_eq, h10, h12, h00, h22, h02, h20]
  simp only [if_true]
  omega

theorem wonScannedLines_marked (state : gameState) (i j : Fin 3)
    (hq : scanResult state.board = noWinner)
    (hx : countMark state.board cross ≤ 5) (ho : countMark state.board circle ≤ 5) :
    wonScannedLines (marked state i j).board ≤ 2 := by
  obtain ⟨rx, dx, ax⟩ := won_through state i j hq cross (Or.inl rfl)
  obtain ⟨ro, dO, ao⟩ := won_through state i j hq circle (Or.inr rfl)
  have row_at : ∀ r, rowHolds (marked state i j).board r cross ∨
      rowHolds (marked state i j).board r circle → r = i := by
    rintro r (h | h)
    · exact (rx r h).1
    · exact (ro r h).1
  have f0 : (if rowHolds (marked state i j).board 0 cross ∨
      rowHolds (marked state i j).board 0 circle then 1 else 0) = 0 ∨ i.val = 0 := by
    split_ifs with h
    · exact Or.inr (by rw [← row_at 0 h]; rfl)
    · exact Or.inl rfl
  have f1 : (if rowHolds (marked state i j).board 1 cross ∨
      rowHolds (marked state i j).board 1 circle then 1 else 0) = 0 ∨ i.val = 1 := by
    split_ifs with h
    · exact Or.inr (by rw [← row_at 1 h]; rfl)
    · exact Or.inl rfl
  have f2 : (if rowHolds (marked state i j).board 2 cross ∨
      rowHolds (marked state i j).board 2 circle then 1 else 0) = 0 ∨ i.val = 2 := by
    split_ifs with h
    · exact Or.inr (by rw [← row_at 2 h]; rfl)
    · exact Or.inl rfl
  have fd : (if diagonalHolds (marked state i j).board cross ∨
      diagonalHolds (marked state i j).board circle then 1 else 0) = 0 ∨ i.val = j.val := by
    split_ifs with h
    · rcases h with h | h
      · exact Or.inr (by rw [(dx h).1])
      · exact Or.inr (by rw [(dO h).1])
    · exact Or.inl rfl
  have fa : (if antidiagonalHolds (marked state i j).board cross ∨
      antidiagonalHolds (marked state i j).board circle then 1 else 0) = 0 ∨
      i.val + j.val = 2 := by
    split_ifs with h
    · rcases h with h | h
      · exact Or.inr (ax h).1
      · exact Or.inr (ao h).1
    · exact Or.inl rfl
  have centre : i.val = 1 → j.val = 1 →
      (if rowHolds (marked state i j).board 1 cross ∨
        rowHolds (marked state i j).board 1 circle then 1 else 0) = 0 ∨
      (if diagonalHolds (marked state i j).board cross ∨
        diagonalHolds (marked state i j).board circle then 1 else 0) = 0 ∨
      (if antidiagonalHolds (marked state i j).board cross ∨
        antidiagonalHolds (marked state i j).board circle then 1 else 0) = 0 := by
    intro hi hj
    have hi1 : i = 1 := Fin.ext hi
    have hj1 : j = 1 := Fin.ext hj
    subst hi1 hj1
    by_cases hrow : rowHolds (marked state 1 1).board 1 cross ∨
        rowHolds (marked state 1 1).board 1 circle
    swap
    · exact Or.inl (if_neg hrow)
    by_cases hdiag : diagonalHolds (marked state 1 1).board cross ∨
        diagonalHolds (marked state 1 1).board circle
    swap
    · exact Or.inr (Or.inl (if_neg hdiag))
    by_cases hanti : antidiagonalHolds (marked state 1 1).board cross ∨
        antidiagonalHolds (marked state 1 1).board circle
    swap
    · exact Or.inr (Or.inr (if_neg hanti))
    exfalso
    have key : ∀ w, w = cross ∨ w = circle → w = state.turnPlayer →
        countMark state.board w ≤ 5 → False := by
      intro w hw hwt hcount
      have hrow' : rowHolds (marked state 1 1).board 1 w := by
        rcases hrow with h | h
        · rw [← hwt.trans ((rx 1 h).2.symm)] at h; exact h
        · rw [← hwt.trans ((ro 1 h).2.symm)] at h; exact h
      have hdiag' : diagonalHolds (marked state 1 1).board w := by
        rcases hdiag with h | h
        · rw [← hwt.trans ((dx h).2.symm)] at h; exact h
        · rw [← hwt.trans ((dO h).2.symm)] at h; exact h
      have hanti' : antidiagonalHolds (marked state 1 1).board w := by
        rcases hanti with h | h
        · rw [← hwt.trans ((ax h).2.symm)] at h; exact h
        · rw [← hwt.trans ((ao h).2.symm)] at h; exact h
      obtain ⟨h10, _, h12⟩ := hrow'
      obtain ⟨h00, _, h22⟩ := hdiag'
      obtain ⟨h02, _, h20⟩ := hanti'
      rw [marked_board_same _ _ _ _ _ (by decide)] at h10 h12 h00 h22 h02 h20
      have := six_marks state.board w h10 h12 h00 h22 h02 h20
      omega
    rcases hrow with h | h
    · exact key cross (Or.inl rfl) (rx 1 h).2 hx
    · exact key circle (Or.inr rfl) (ro 1 h).2 ho
  rw [wonScannedLines_eq]
  have hi := i.isLt
  have hj := j.isLt
  have b0 : (if rowHolds (marked state i j).board 0 cross ∨
      rowHolds (marked state i j).board 0 circle then 1 else 0) ≤ 1 := by split_ifs <;> omega
  have b1 : (if rowHolds (marked state i j).board 1 cross ∨
      rowHolds (marked state i j).board 1 circle then 1 else 0) ≤ 1 := by split_ifs <;> omega
  have b2 : (if rowHolds (marked state i j).board 2 cross ∨
      rowHolds (marked state i j).board 2 circle then 1 else 0) ≤ 1 := by split_ifs <;> omega
  have bd : (if diagonalHolds (marked state i j).board cross ∨
      diagonalHolds (marked state i j).board circle then 1 else 0) ≤ 1 := by split_ifs <;> omega
  have ba : (if antidiagonalHolds (marked state i j).board cross ∨
      antidiagonalHolds (marked state i j).board circle then 1 else 0) ≤ 1 := by
    split_ifs <;> omega
  by_cases hc : i.val = 1 ∧ j.val = 1
  · have := centre hc.1 hc.2
    omega
  · omega

theorem wonScannedLines_quiet (b : Board) (hq : scanResult b = noWinner) :
    wonScannedLines b = 0 := by
  obtain ⟨rx, dx, ax⟩ := quiet_lines b hq cross (Or.inl rfl)
  obtain ⟨ro, dO, ao⟩ := quiet_lines b hq circle (Or.inr rfl)
  rw [wonScannedLines_eq]
  simp [rx, ro, dx, dO, ax, ao]

theorem loopHead_counts (n : Nat) (state : gameState) (h : loopHead n state) :
    countMark state.board cross ≤ 5 ∧ countMark state.board circle ≤ 5 := by
  obtain ⟨⟨_, hx, ho⟩, _, hc⟩ := h
  omega

/-- C16 (counterexample): the placements (1,0), (0,1), (1,2), (0,2), (0,0),
(2,0), (2,2), (2,1), (1,1), alternating from cross, each made after
`checkForWinner` returned `noWinner`, lead to the board X O O / X X X / O O X,
on which both row 1 and the diagonal from the top left are fully marked with
`cross`: two of the eight lines, not at most one. -/
theorem two_lines_on_reachable_board :
    ∃ log, main 3 [(1, 0), (0, 1), (1, 2), (0, 2), (0, 0), (2, 0), (2, 2), (2, 1), (1, 1)]
        = Except.ok log ∧
      results log = [noWinner, noWinner, noWinner, noWinner, noWinner, noWinner, noWinner,
        noWinner, crossWon] ∧
      ∃ m, log.getLast? = Option.some m ∧
        (∀ i j, m.after.board i j = doubleLineBoard i j) ∧
        rowHolds m.after.board 1 cross ∧ diagonalHolds m.after.board cross ∧
        ¬ wonLines m.after.board ≤ 1 :=
  ⟨_, rfl, rfl, _, rfl, by decide, by decide, by decide, by decide⟩

/-- C16 (amended): in every run of the loop of `main` from the initial state,
on the board before a placement no row and no diagonal is fully marked, and on
the board after it every row or diagonal fully marked with `cross` or with
`circle` contains the square just placed and holds the mark placed there; at
most two of the three rows and two diagonals are fully marked. -/
theorem scanned_lines_through_last (fuel : Nat) (hfuel : 3 ≤ fuel)
    (inputs : List (Int × Int)) :
    ∃ log, main fuel inputs = Except.ok log ∧
      ∀ k m, log.get? k = Option.some m →
        wonScannedLines m.before.board = 0 ∧
        wonScannedLines m.after.board ≤ 2 ∧
        ∃ i j : Fin 3, (i.val : Int) = m.row ∧ (j.val : Int) = m.column ∧
          ∀ w, w = cross ∨ w = circle →
            (∀ r, rowHolds m.after.board r w → r = i ∧ w = m.after.board i j) ∧
            (diagonalHolds m.after.board w → i = j ∧ w = m.after.board i j) ∧
            (antidiagonalHolds m.after.board w →
              i.val + j.val = 2 ∧ w = m.after.board i j) := by
  obtain ⟨log, hlog, hall⟩ := mainLoop_trace fuel hfuel inputs initialState 0 loopHead_initial
  refine ⟨log, hlog, fun k m hk => ?_⟩
  obtain ⟨hhead, _, _, i, j, hr, hc, _, hafter⟩ := hall k m hk
  have hq : scanResult m.before.board = noWinner := hhead.2.1
  obtain ⟨hx, ho⟩ := loopHead_counts _ _ hhead
  refine ⟨wonScannedLines_quiet _ hq, ?_, i, j, hr, hc, fun w hw => ?_⟩
  · rw [hafter]
    exact wonScannedLines_marked m.before i j hq hx ho
  · rw [hafter, marked_board_here]
    exact won_through m.before i j hq w hw

/-- C16 (witness): the run that ends on X O O / X X X / O O X has the
properties of the amended claim, and on its last board exactly two of the rows
and diagonals are fully marked. -/
theorem scanned_lines_through_last_witness :
    wonScannedLines doubleLineBoard = 2 ∧
    ∃ log, main 3 [(1, 0), (0, 1), (1, 2), (0, 2), (0, 0), (2, 0), (2, 2), (2, 1), (1, 1)]
        = Except.ok log ∧
      ∀ k m, log.get? k = Option.some m →
        wonScannedLines m.before.board = 0 ∧
        wonScannedLines m.after.board ≤ 2 ∧
        ∃ i j : Fin 3, (i.val : Int) = m.row ∧ (j.val : Int) = m.column ∧
          ∀ w, w = cross ∨ w = circle →
            (∀ r, rowHolds m.after.board r w → r = i ∧ w = m.after.board i j) ∧
            (diagonalHolds m.after.board w → i = j ∧ w = m.after.board i j) ∧
            (antidiagonalHolds m.after.board w →
              i.val + j.val = 2 ∧ w = m.after.board i j) :=
  ⟨by decide, scanned_lines_through_last 3 (by decide)
    [(1, 0), (0, 1), (1, 2), (0, 2), (0, 0), (2, 0), (2, 2), (2, 1), (1, 1)]⟩

theorem win_through_last (state : gameState) (i j : Fin 3)
    (hq : scanResult state.board = noWinner) (w : squareState) (hw : w = cross ∨ w = circle)
    (h : scanResult (marked state i j).board = winOf w) :
    w = state.turnPlayer ∧ lineThrough (marked state i j).board i j w := by
  obtain ⟨hrow, hdiag, hanti⟩ := won_through state i j hq w hw
  have hline : (∃ r, rowHolds (marked state i j).board r w) ∨
      diagonalHolds (marked state i j).board w ∨ antidiagonalHolds (marked state i j).board w := by
    rcases hw with rfl | rfl
    · rcases scanResult_win _ _ (Or.inl rfl) h with h | h | h | h | h <;>
        rw [lineWin_eq_crossWon] at h
      · exact Or.inl ⟨0, h⟩
      · exact Or.inl ⟨1, h⟩
      · exact Or.inl ⟨2, h⟩
      · exact Or.inr (Or.inl h)
      · exact Or.inr (Or.inr h)
    · rcases scanResult_win _ _ (Or.inr rfl) h with h | h | h | h | h <;>
        rw [lineWin_eq_circleWon] at h
      · exact Or.inl ⟨0, h⟩
      · exact Or.inl ⟨1, h⟩
      · exact Or.inl ⟨2, h⟩
      · exact Or.inr (Or.inl h)
      · exact Or.inr (Or.inr h)
  rcases hline with ⟨r, h⟩ | h | h
  · obtain ⟨hr, ht⟩ := hrow r h
    subst hr
    exact ⟨ht, Or.inl h⟩
  · obtain ⟨hij, ht⟩ := hdiag h
    exact ⟨ht, Or.inr (Or.inr (Or.inl ⟨hij, h⟩))⟩
  · obtain ⟨hij, ht⟩ := hanti h
    exact ⟨ht, Or.inr (Or.inr (Or.inr ⟨hij, h⟩))⟩

/-- C18: in every run of the loop of `main` from the initial state, when
`checkForWinner` returns `crossWon` or `circleWon` after a successful
placement, the winner is the player who placed: `turnPlayer` is the one of
before the placement, the result is `crossWon` exactly when `turnPlayer` is
`cross` and `circleWon` exactly when it is `circle`, and a line through the
square just placed is fully marked with that player's mark. -/
theorem winner_is_mover (fuel : Nat) (hfuel : 3 ≤ fuel) (inputs : List (Int × Int)) :
    ∃ log, main fuel inputs = Except.ok log ∧
      ∀ k m, log.get? k = Option.some m → m.result = crossWon ∨ m.result = circleWon →
        checkForWinner fuel m.after = Except.ok m.result ∧
        m.after.turnPlayer = m.before.turnPlayer ∧
        (m.result = crossWon ↔ m.after.turnPlayer = cross) ∧
        (m.result = circleWon ↔ m.after.turnPlayer = circle) ∧
        ∃ i j : Fin 3, (i.val : Int) = m.row ∧ (j.val : Int) = m.column ∧
          m.before.board i j = none ∧
          m.after.board i j = m.after.turnPlayer ∧
          lineThrough m.after.board i j m.after.turnPlayer := by
  obtain ⟨log, hlog, hall⟩ := mainLoop_trace fuel hfuel inputs initialState 0 loopHead_initial
  refine ⟨log, hlog, fun k m hk hwin => ?_⟩
  obtain ⟨hhead, hres, _, i, j, hr, hc, hfree, hafter⟩ := hall k m hk
  have hq : scanResult m.before.board = noWinner := hhead.2.1
  have hcheck : checkForWinner fuel m.after = Except.ok m.result := by
    rw [checkForWinner_of_fuel hfuel, hres]
  have hturn : m.after.turnPlayer = m.before.turnPlayer := by rw [hafter]; rfl
  have hcell : m.after.board i j = m.after.turnPlayer := by
    rw [hturn, hafter, marked_board_here]
  rw [hafter] at hres
  rcases hwin with hwin | hwin
  · obtain ⟨ht, hline⟩ := win_through_last m.before i j hq cross (Or.inl rfl)
      (hres.symm.trans hwin)
    have ht' : m.after.turnPlayer = cross := hturn.trans ht.symm
    refine ⟨hcheck, hturn, ⟨fun _ => ht', fun _ => hwin⟩, ⟨fun h => ?_, fun h => ?_⟩,
      i, j, hr, hc, hfree, hcell, ?_⟩
    · rw [hwin] at h
      exact absurd h (by decide)
    · rw [ht'] at h
      exact absurd h (by decide)
    · rw [ht', hafter]
      exact hline
  · obtain ⟨ht, hline⟩ := win_through_last m.before i j hq circle (Or.inr rfl)
      (hres.symm.trans hwin)
    have ht' : m.after.turnPlayer = circle := hturn.trans ht.symm
    refine ⟨hcheck, hturn, ⟨fun h => ?_, fun h => ?_⟩, ⟨fun _ => ht', fun _ => hwin⟩,
      i, j, hr, hc, hfree, hcell, ?_⟩
    · rw [hwin] at h
      exact absurd h (by decide)
    · rw [ht'] at h
      exact absurd h (by decide)
    · rw [ht', hafter]
      exact hline

/-- C18 (witness): in the run (0,0), (0,1), (1,1), (1,0), (2,2) the last
placement is by cross and `checkForWinner` returns `crossWon`. -/
theorem winner_is_mover_witness :
    results <$> main 3 [(0, 0), (0, 1), (1, 1), (1, 0), (2, 2)]
      = Except.ok [noWinner, noWinner, noWinner, noWinner, crossWon] ∧
    ∃ log, main 3 [(0, 0), (0, 1), (1, 1), (1, 0), (2, 2)] = Except.ok log ∧
      ∀ k m, log.get? k = Option.some m → m.result = crossWon ∨ m.result = circleWon →
        checkForWinner 3 m.after = Except.ok m.result ∧
        m.after.turnPlayer = m.before.turnPlayer ∧
        (m.result = crossWon ↔ m.after.turnPlayer = cross) ∧
        (m.result = circleWon ↔ m.after.turnPlayer = circle) ∧
        ∃ i j : Fin 3, (i.val : Int) = m.row ∧ (j.val : Int) = m.column ∧
          m.before.board i j = none ∧
          m.after.board i j = m.after.turnPlayer ∧
          lineThrough m.after.board i j m.after.turnPlayer :=
  ⟨rfl, winner_is_mover 3 (by decide) [(0, 0), (0, 1), (1, 1), (1, 0), (2, 2)]⟩

theorem hasNone_of_count (b : Board) (h : countMark b none = 0) : hasNone b = false := by
  rw [Bool.eq_false_iff, Ne, hasNone_iff]
  rintro ⟨i, j, hij⟩
  rw [countMark_eq] at h
  rcases fin3_cases i with rfl | rfl | rfl <;> rcases fin3_cases j with rfl | rfl | rfl <;>
    rw [hij] at h <;> simp at h

theorem scanResult_full (b : Board) (h : hasNone b = false) : scanResult b ≠ noWinner := by
  unfold scanResult
  simp only [h]
  split_ifs with h1 h2
  · exact h1
  · exact absurd h2 (by decide)
  · decide

theorem count_pos_of_free (b : Board) (i j : Fin 3) (h : b i j = none) :
    1 ≤ countMark b none := by
  rw [countMark_eq]
  rcases fin3_cases i with rfl | rfl | rfl <;> rcases fin3_cases j with rfl | rfl | rfl <;>
    rw [h] <;> simp <;> omega

/-- C19: the game ends.  On a board without a `none` square `checkForWinner`
returns a result other than `noWinner`; a successful `placeMark` with
`turnPlayer` `cross` or `circle` lowers the number of `none` squares by exactly
one; and the loop of `main`, from the empty board, makes at most 9 successful
placements on any input, `checkForWinner` returning `noWinner` after each but
the last made and a result other than `noWinner` after a ninth. -/
theorem game_ends (fuel : Nat) (hfuel : 3 ≤ fuel) :
    (∀ state : gameState, (∀ i j, state.board i j ≠ none) →
      ∃ result, checkForWinner fuel state = Except.ok result ∧ result ≠ noWinner) ∧
    (∀ (state : gameState) (i j : Fin 3),
      state.turnPlayer = cross ∨ state.turnPlayer = circle → state.board i j = none →
      ∃ state', placeMark state (i.val : Int) (j.val : Int) = Except.ok (Option.none, state') ∧
        countMark state'.board none + 1 = countMark state.board none) ∧
    (∀ inputs : List (Int × Int), ∃ log, main fuel inputs = Except.ok log ∧
      log.length ≤ 9 ∧
      (∀ k m, log.get? k = Option.some m → k + 1 < log.length → m.result = noWinner) ∧
      (∀ m, log.get? 8 = Option.some m → m.result ≠ noWinner)) := by
  refine ⟨fun state hfull => ?_, fun state i j hturn hfree => ?_, fun inputs => ?_⟩
  · refine ⟨_, checkForWinner_of_fuel hfuel state, scanResult_full _ ?_⟩
    rw [Bool.eq_false_iff, Ne, hasNone_iff]
    rintro ⟨i, j, hij⟩
    exact hfull i j hij
  · refine ⟨marked state i j, (placeMark_inside state i j).trans (if_neg (not_not.2 hfree)), ?_⟩
    apply countMark_marked_none state i j hfree
    rcases hturn with h | h <;> rw [h] <;> decide
  · obtain ⟨log, hlog, hall⟩ := mainLoop_trace fuel hfuel inputs initialState 0 loopHead_initial
    have hbound : ∀ k m, log.get? k = Option.some m →
        countMark m.before.board none + k = 9 ∧ 1 ≤ countMark m.before.board none := by
      intro k m hk
      obtain ⟨hhead, _, _, i, j, _, _, hfree, _⟩ := hall k m hk
      have h9 := hhead.2.2
      rw [Nat.zero_add] at h9
      exact ⟨h9, count_pos_of_free _ i j hfree⟩
    refine ⟨log, hlog, ?_, fun k m hk hlen => (hall k m hk).2.2.1 hlen, fun m hk => ?_⟩
    · by_contra hlen
      have h9 : 9 < log.length := by omega
      have hget : log.get? 9 = Option.some (log.get ⟨9, h9⟩) := List.get?_eq_get h9
      have := hbound 9 _ hget
      omega
    · obtain ⟨hhead, hres, _, i, j, _, _, hfree, hafter⟩ := hall 8 m hk
      have h9 := (hbound 8 m hk).1
      have hturn : m.before.turnPlayer ≠ none := by
        rcases alternation_turn _ _ hhead.1 with h | h <;> rw [h] <;> decide
      have hdec := countMark_marked_none m.before i j hfree hturn
      rw [hres, hafter]
      exact scanResult_full _ (hasNone_of_count _ (by omega))

/-- C19 (witness): with three units of fuel, the run of nine placements that
fills the board X O X / X O O / O X X ends with `draw` after the ninth. -/
theorem game_ends_witness :
    results <$> main 3 [(0, 0), (0, 1), (0, 2), (1, 1), (1, 0), (1, 2), (2, 1), (2, 0), (2, 2)]
      = Except.ok [noWinner, noWinner, noWinner, noWinner, noWinner, noWinner, noWinner,
          noWinner, draw] ∧
    ∃ log, main 3 [(0, 0), (0, 1), (0, 2), (1, 1), (1, 0), (1, 2), (2, 1), (2, 0), (2, 2)]
        = Except.ok log ∧
      log.length ≤ 9 ∧
      (∀ k m, log.get? k = Option.some m → k + 1 < log.length → m.result = noWinner) ∧
      (∀ m, log.get? 8 = Option.some m → m.result ≠ noWinner) :=
  ⟨rfl, (game_ends 3 (by decide)).2.2
    [(0, 0), (0, 1), (0, 2), (1, 1), (1, 0), (1, 2), (2, 1), (2, 0), (2, 2)]⟩

end TicTacToe
